import Mathlib

/-!
Verification of the declarative rules engine (`engine.py`).

The development shallowly embeds the engine: Python runtime values become the
inductive `Val` (ints and floats are modelled as `ℤ` and exact rationals `ℚ`),
operation dictionaries become `OpDict`, the mutable `RuleContext` becomes the
record `Ctx` threaded through an `Except`-valued state-passing evaluator, and
the recursive interpreter takes an explicit fuel argument so that every
function is structurally recursive and kernel-computable.  Python exceptions
(TypeError, KeyError, ValueError, ZeroDivisionError) are modelled by the
`Err` sum; a raised exception aborts the whole evaluation, exactly as an
uncaught Python exception aborts `evaluate`.
-/

namespace Engine

/-! ### Exact rational arithmetic helpers

Mathlib's `Rat.add`, `Rat.mul`, `Rat.sub` and `Rat.inv` are `@[irreducible]`,
so the embedding uses its own kernel-computable wrappers built from
`Rat.divInt` / `mkRat` and proves them equal to the standard operations. -/

def ratOfInt (n : ℤ) : ℚ := mkRat n 1

def ratAdd (a b : ℚ) : ℚ := Rat.divInt (a.num * b.den + b.num * a.den) (a.den * b.den)

def ratSub (a b : ℚ) : ℚ := Rat.divInt (a.num * b.den - b.num * a.den) (a.den * b.den)

def ratMul (a b : ℚ) : ℚ := Rat.divInt (a.num * b.num) (a.den * b.den)

def ratDiv (a b : ℚ) : ℚ := Rat.divInt (a.num * b.den) (a.den * b.num)

def ratFloor (q : ℚ) : ℤ := Int.fdiv q.num q.den

def ratCeil (q : ℚ) : ℤ := -Int.fdiv (-q.num) q.den

/-- Truncation toward zero, the semantics of Python's `int(float)`. -/
def truncZ (q : ℚ) : ℤ := if q.num < 0 then ratCeil q else ratFloor q

def pow10 (p : ℤ) : ℚ := if 0 ≤ p then mkRat (10 ^ p.toNat) 1 else mkRat 1 (10 ^ (-p).toNat)

theorem ratOfInt_eq (n : ℤ) : ratOfInt n = (n : ℚ) := by
  simp [ratOfInt, Rat.mkRat_eq_divInt, Rat.divInt_eq_div]

theorem ratAdd_eq (a b : ℚ) : ratAdd a b = a + b := by
  rw [ratAdd, Rat.add_def' a b, Rat.mkRat_eq_divInt]
  push_cast
  ring_nf

theorem ratSub_eq (a b : ℚ) : ratSub a b = a - b := by
  rw [ratSub, Rat.sub_def' a b, Rat.mkRat_eq_divInt]
  push_cast
  ring_nf

theorem ratMul_eq (a b : ℚ) : ratMul a b = a * b := by
  rw [ratMul, Rat.mul_def a b, Rat.normalize_eq_mkRat, Rat.mkRat_eq_divInt]
  push_cast
  try ring_nf

theorem ratDiv_eq (a b : ℚ) : ratDiv a b = a / b := by
  rw [ratDiv, Rat.div_def' a b]

theorem ratFloor_eq (q : ℚ) : ratFloor q = ⌊q⌋ := by
  rw [ratFloor, Rat.floor_def, Int.fdiv_eq_ediv _ (by positivity)]

theorem ratCeil_eq (q : ℚ) : ratCeil q = ⌈q⌉ := by
  have h : (⌈q⌉ : ℤ) = -⌊-q⌋ := by
    rw [Int.floor_neg]
    ring
  rw [ratCeil, h]
  congr 1
  have hq : ratFloor (-q) = ⌊-q⌋ := ratFloor_eq (-q)
  rw [← hq, ratFloor, Rat.neg_num, Rat.neg_den]

theorem truncZ_eq (q : ℚ) : truncZ q = if q < 0 then ⌈q⌉ else ⌊q⌋ := by
  rw [truncZ, ratFloor_eq, ratCeil_eq]
  congr 1
  simp [Rat.num_neg]

theorem pow10_eq (p : ℤ) : pow10 p = (10 : ℚ) ^ p := by
  rw [pow10]
  split
  case isTrue h =>
    rw [Rat.mkRat_eq_divInt, Rat.divInt_eq_div]
    push_cast
    rw [div_one, ← zpow_natCast (10 : ℚ) p.toNat, Int.toNat_of_nonneg h]
  case isFalse h =>
    rw [Rat.mkRat_eq_divInt, Rat.divInt_eq_div]
    push_cast
    rw [← zpow_natCast (10 : ℚ) (-p).toNat,
      Int.toNat_of_nonneg (by omega : (0 : ℤ) ≤ -p), one_div, ← zpow_neg, neg_neg]

theorem pow10_pos (p : ℤ) : 0 < pow10 p := by
  rw [pow10_eq]
  positivity

/-- Round half to even ("banker's rounding"), the semantics of Python's
built-in `round`. -/
def halfEvenZ (q : ℚ) : ℤ :=
  let n := ratFloor q
  let r := ratSub q (ratOfInt n)
  if r < mkRat 1 2 then n
  else if mkRat 1 2 < r then n + 1
  else if n % 2 = 0 then n else n + 1

theorem halfEvenZ_eq (q : ℚ) : halfEvenZ q =
    (if q - ⌊q⌋ < 1 / 2 then ⌊q⌋
     else if 1 / 2 < q - ⌊q⌋ then ⌊q⌋ + 1
     else if Even ⌊q⌋ then ⌊q⌋ else ⌊q⌋ + 1) := by
  have h2 : (mkRat 1 2 : ℚ) = 1 / 2 := by
    rw [Rat.mkRat_eq_divInt, Rat.divInt_eq_div]
    norm_num
  rw [halfEvenZ]
  simp only [ratSub_eq, ratOfInt_eq, ratFloor_eq, h2, Int.even_iff]

/-- Python `round(x, p)` applied to a rational: scale by `10^p`, round half to
even, scale back. -/
def roundRat (q : ℚ) (p : ℤ) : ℚ :=
  ratDiv (ratOfInt (halfEvenZ (ratMul q (pow10 p)))) (pow10 p)

theorem roundRat_eq (q : ℚ) (p : ℤ) :
    roundRat q p = (halfEvenZ (q * 10 ^ p) : ℚ) / 10 ^ p := by
  rw [roundRat, ratDiv_eq, ratOfInt_eq, ratMul_eq, pow10_eq]

/-! ### The value model

Python runtime values that flow through the engine: `None`, `bool`, `int`,
`float` (modelled as an exact rational), `str`, `list`, and operation
dictionaries.  An operation dictionary records exactly the keys the
interpreter reads: `operation`, `value`, `subject`, `values`, `conditions`
and `unit`; an `Option` field is `some` when the key is present. -/

mutual

inductive Val where
  | none
  | bool (b : Bool)
  | int (n : ℤ)
  | float (q : ℚ)
  | str (s : String)
  | list (vs : List Val)
  | dict (d : OpDict)

inductive OpDict where
  | mk (operation : Option String) (value : Option Val) (subject : Option Val)
      (values : Option Val) (conditions : List CondDict) (unit : Option String)

inductive CondDict where
  | test (testE thenE : Val)
  | els (elseE : Val)
  | other

end

def OpDict.operation : OpDict → Option String
  | .mk o _ _ _ _ _ => o

def OpDict.value : OpDict → Option Val
  | .mk _ v _ _ _ _ => v

def OpDict.subject : OpDict → Option Val
  | .mk _ _ s _ _ _ => s

def OpDict.values : OpDict → Option Val
  | .mk _ _ _ vs _ _ => vs

def OpDict.conditions : OpDict → List CondDict
  | .mk _ _ _ _ cs _ => cs

def OpDict.unit : OpDict → Option String
  | .mk _ _ _ _ _ u => u

/-! ### String helpers

Kernel-computable character-list implementations of the string operations the
source uses: the `$` reference test, prefix stripping, substring search (for
Python's `'_DATE' in op_type`), and code-point lexicographic comparison. -/

def strIsRef (s : String) : Bool :=
  match s.data with
  | '$' :: _ => true
  | _ => false

def strTail (s : String) : String := ⟨s.data.drop 1⟩

/-- Python `str(x)` interpolation of an optional string, where `None` prints
as `"None"` (used by the `f"@{service}.{field}"` key construction). -/
def optStr : Option String → String
  | some s => s
  | Option.none => "None"

def charsStarts : List Char → List Char → Bool
  | [], _ => true
  | _ :: _, [] => false
  | c :: cs, d :: ds => c == d && charsStarts cs ds

def charsHasSub (pat : List Char) : List Char → Bool
  | [] => pat.isEmpty
  | d :: ds => charsStarts pat (d :: ds) || charsHasSub pat ds

/-- Python `pat in s` substring containment. -/
def strHasSub (s pat : String) : Bool := charsHasSub pat.data s.data

def charsLt : List Char → List Char → Bool
  | [], [] => false
  | [], _ :: _ => true
  | _ :: _, [] => false
  | c :: cs, d :: ds =>
      if c.toNat < d.toNat then true
      else if d.toNat < c.toNat then false
      else charsLt cs ds

/-- Python `a < b` on strings: lexicographic on code points. -/
def strLtB (a b : String) : Bool := charsLt a.data b.data

/-- Python `a <= b` on strings. -/
def strLeB (a b : String) : Bool := strLtB a b || a == b

/-! ### Numeric views -/

/-- A Python numeric value as classified by `isinstance(value, (int, float))`:
a `bool` (which is an `int` subclass in Python), an `int`, or a `float`. -/
inductive PyNum where
  | pbool (b : Bool)
  | pint (n : ℤ)
  | pfloat (q : ℚ)
deriving DecidableEq

def PyNum.rat : PyNum → ℚ
  | .pbool b => if b then 1 else 0
  | .pint n => ratOfInt n
  | .pfloat q => q

def PyNum.toVal : PyNum → Val
  | .pbool b => .bool b
  | .pint n => .int n
  | .pfloat q => .float q

/-- Python `int(x)` on a numeric: truncation toward zero. -/
def PyNum.toIntZ : PyNum → ℤ
  | .pbool b => if b then 1 else 0
  | .pint n => n
  | .pfloat q => truncZ q

/-- The numeric view of a value, `some` exactly when Python's
`isinstance(value, (int, float))` holds. -/
def Val.toNum : Val → Option PyNum
  | .bool b => some (.pbool b)
  | .int n => some (.pint n)
  | .float q => some (.pfloat q)
  | _ => Option.none

/-! ### TypeSpec -/

/-- A numeric bound, `Optional[Union[int, float]]` in the source. -/
inductive NumV where
  | int (n : ℤ)
  | float (q : ℚ)
deriving DecidableEq

def NumV.rat : NumV → ℚ
  | .int n => ratOfInt n
  | .float q => q

def NumV.toPyNum : NumV → PyNum
  | .int n => .pint n
  | .float q => .pfloat q

/-- Specification for value types (`TypeSpec` dataclass). -/
structure TypeSpec where
  unit : Option String := Option.none
  precision : Option ℤ := Option.none
  min : Option NumV := Option.none
  max : Option NumV := Option.none
deriving DecidableEq

/-- Python `max(value, m)`: returns `m` exactly when `m > value` (ties keep
the first argument, preserving its type). -/
def pyMaxNum (x : PyNum) (m : NumV) : PyNum :=
  if x.rat < m.rat then m.toPyNum else x

/-- Python `min(value, m)`: returns `m` exactly when `m < value`. -/
def pyMinNum (x : PyNum) (m : NumV) : PyNum :=
  if m.rat < x.rat then m.toPyNum else x

/-- Python `round(x, p)`.  On an `int` (or `bool`) the result is an `int`:
unchanged for `p ≥ 0`, rounded to a multiple of `10^(-p)` otherwise.  On a
`float` the result is a `float`. -/
def pyRound (x : PyNum) (p : ℤ) : PyNum :=
  match x with
  | .pbool b => .pint (intRoundPy (if b then 1 else 0) p)
  | .pint n => .pint (intRoundPy n p)
  | .pfloat q => .pfloat (roundRat q p)
where
  intRoundPy (n : ℤ) (p : ℤ) : ℤ :=
    if 0 ≤ p then n else halfEvenZ (ratMul (ratOfInt n) (pow10 p)) * 10 ^ (-p).toNat

/-- The numeric tail of `TypeSpec.enforce`: min clamp, then max clamp, then
precision rounding, then eurocent integer coercion, in source order. -/
def enforceNum (t : TypeSpec) (x0 : PyNum) : Val :=
  let x1 := match t.min with
    | some m => pyMaxNum x0 m
    | Option.none => x0
  let x2 := match t.max with
    | some m => pyMinNum x1 m
    | Option.none => x1
  let x3 := match t.precision with
    | some p => pyRound x2 p
    | Option.none => x2
  if t.unit = some "eurocent" then .int x3.toIntZ else x3.toVal

/-! ### Float literal parsing

Model of Python `float(str)` for the decimal grammar
`[ws] [sign] (digits [. digits] | . digits) [(e|E) [sign] digits] [ws]`.
`inf`, `nan` and underscore digit separators are outside the model, since an
exact rational cannot represent the former. -/

def isDigitCh (c : Char) : Bool := 48 ≤ c.toNat && c.toNat ≤ 57

def isSpaceCh (c : Char) : Bool :=
  c == ' ' || c == '\t' || c == '\n' || c == '\r'

def digitsToNat (cs : List Char) : ℕ :=
  cs.foldl (fun a c => a * 10 + (c.toNat - 48)) 0

def takeDigits : List Char → List Char × List Char
  | [] => ([], [])
  | c :: cs =>
      if isDigitCh c then
        let p := takeDigits cs
        (c :: p.1, p.2)
      else ([], c :: cs)

def parseExpPart (base : ℚ) : List Char → Option ℚ
  | [] => some base
  | 'e' :: rest => parseExpDigits base rest
  | 'E' :: rest => parseExpDigits base rest
  | _ => Option.none
where
  parseExpDigits (base : ℚ) (cs : List Char) : Option ℚ :=
    match cs with
    | '+' :: r => parseExpMag base 1 r
    | '-' :: r => parseExpMag base (-1) r
    | r => parseExpMag base 1 r
  parseExpMag (base : ℚ) (sgn : ℤ) (cs : List Char) : Option ℚ :=
    let p := takeDigits cs
    if p.1.isEmpty || !p.2.isEmpty then Option.none
    else some (ratMul base (pow10 (sgn * digitsToNat p.1)))

def parseUnsigned (cs : List Char) : Option ℚ :=
  let ip := takeDigits cs
  match ip.2 with
  | '.' :: rest2 =>
      let fp := takeDigits rest2
      if ip.1.isEmpty && fp.1.isEmpty then Option.none
      else
        parseExpPart
          (ratAdd (ratOfInt (digitsToNat ip.1))
            (ratDiv (ratOfInt (digitsToNat fp.1)) (pow10 fp.1.length))) fp.2
  | _ =>
      if ip.1.isEmpty then Option.none
      else parseExpPart (ratOfInt (digitsToNat ip.1)) ip.2

/-- Model of Python `float(s)`: `some q` when `s` parses as a decimal float
literal with exact value `q`, `none` when parsing fails (raises ValueError). -/
def parseFloat (s : String) : Option ℚ :=
  let cs := ((s.data.dropWhile isSpaceCh).reverse.dropWhile isSpaceCh).reverse
  match cs with
  | '+' :: rest => parseUnsigned rest
  | '-' :: rest => (parseUnsigned rest).map (fun q => -q)
  | rest => parseUnsigned rest

/-- `TypeSpec.enforce` (engine.py lines 24-53): null passes through; strings
are parsed as floats and returned unchanged on failure; non-numerics pass
through; numerics get min clamp, max clamp, precision rounding and eurocent
integer coercion in that order. -/
def TypeSpec.enforce (t : TypeSpec) (v : Val) : Val :=
  match v with
  | .none => .none
  | .str s =>
      match parseFloat s with
      | some q => enforceNum t (.pfloat q)
      | Option.none => .str s
  | .bool b => enforceNum t (.pbool b)
  | .int n => enforceNum t (.pint n)
  | .float q => enforceNum t (.pfloat q)
  | v => v

/-! ### Python exceptions and value operations -/

/-- Python exceptions that the engine's code paths can raise.  An uncaught
exception aborts the whole evaluation.  `fuel` is an artifact of the
embedding: the interpreter carries explicit fuel to stay structurally
recursive, and well-fuelled runs never produce it. -/
inductive Err where
  | typeError (msg : String)
  | keyError (msg : String)
  | valueError (msg : String)
  | zeroDivision
  | fuel
deriving DecidableEq

abbrev Res (α : Type) := Except Err α

@[simp] theorem resBind_ok {α β : Type} (a : α) (g : α → Res β) :
    (Except.ok a : Res α) >>= g = g a := rfl

@[simp] theorem resBind_error {α β : Type} (e : Err) (g : α → Res β) :
    (Except.error e : Res α) >>= g = Except.error e := rfl

/-- Encoding of a condition dictionary as a value, used to give dictionaries
a structural equality that mirrors Python's key-wise `dict.__eq__`. -/
def CondDict.enc : CondDict → Val
  | .test t th => .list [.str "test", t, th]
  | .els e => .list [.str "else", e]
  | .other => .list [.str "other"]

def optValEnc : Option Val → Val
  | some v => .list [v]
  | Option.none => .list []

def optStrEnc : Option String → Val
  | some s => .list [.str s]
  | Option.none => .list []

def OpDict.enc : OpDict → Val
  | .mk o v s vs cs u =>
      .list [optStrEnc o, optValEnc v, optValEnc s, optValEnc vs,
        .list (cs.map CondDict.enc), optStrEnc u]

/-- Python `a == b` on engine values: numeric cross-type equality (`1 == 1.0`,
`True == 1`), structural on strings and lists, key-wise on dictionaries, and
`False` across unrelated types.  Never raises. -/
def pyEq : ℕ → Val → Val → Res Bool
  | 0, _, _ => .error .fuel
  | f + 1, a, b =>
    match a, b with
    | .str x, .str y => .ok (x == y)
    | .list [], .list [] => .ok true
    | .list (x :: xs), .list (y :: ys) => do
        let h ← pyEq f x y
        if h then pyEq f (.list xs) (.list ys) else pure false
    | .list _, .list _ => .ok false
    | .dict x, .dict y => pyEq f x.enc y.enc
    | .none, .none => .ok true
    | x, y =>
        match x.toNum, y.toNum with
        | some p, some q => .ok (p.rat == q.rat)
        | _, _ => .ok false

/-- Python `a < b`: numeric order across numeric types, code-point order on
strings, lexicographic on lists; any other combination raises TypeError (in
particular `None < x` and anything involving a dict). -/
def pyLt : ℕ → Val → Val → Res Bool
  | 0, _, _ => .error .fuel
  | f + 1, a, b =>
    match a, b with
    | .str x, .str y => .ok (strLtB x y)
    | .list [], .list [] => .ok false
    | .list [], .list (_ :: _) => .ok true
    | .list (_ :: _), .list [] => .ok false
    | .list (x :: xs), .list (y :: ys) => do
        let h ← pyEq f x y
        if h then pyLt f (.list xs) (.list ys) else pyLt f x y
    | x, y =>
        match x.toNum, y.toNum with
        | some p, some q => .ok (decide (p.rat < q.rat))
        | _, _ => .error (.typeError "unorderable types")

/-- Python `a <= b`, by the same rules as `pyLt`. -/
def pyLe : ℕ → Val → Val → Res Bool
  | 0, _, _ => .error .fuel
  | f + 1, a, b =>
    match a, b with
    | .str x, .str y => .ok (strLeB x y)
    | .list [], .list [] => .ok true
    | .list [], .list (_ :: _) => .ok true
    | .list (_ :: _), .list [] => .ok false
    | .list (x :: xs), .list (y :: ys) => do
        let h ← pyEq f x y
        if h then pyLe f (.list xs) (.list ys) else pyLt f x y
    | x, y =>
        match x.toNum, y.toNum with
        | some p, some q => .ok (decide (p.rat ≤ q.rat))
        | _, _ => .error (.typeError "unorderable types")

/-- The `int`-like view (Python `bool` is an `int` subclass). -/
def intLike : PyNum → Option ℤ
  | .pbool b => some (if b then 1 else 0)
  | .pint n => some n
  | .pfloat _ => Option.none

/-- Python `a + b`: `int + int → int`, any float operand → float, string and
list concatenation; otherwise TypeError. -/
def pyAdd (a b : Val) : Res Val :=
  match a.toNum, b.toNum with
  | some x, some y =>
      match intLike x, intLike y with
      | some m, some n => .ok (.int (m + n))
      | _, _ => .ok (.float (ratAdd x.rat y.rat))
  | _, _ =>
      match a, b with
      | .str s, .str t => .ok (.str (s ++ t))
      | .list xs, .list ys => .ok (.list (xs ++ ys))
      | _, _ => .error (.typeError "unsupported operand types for +")

/-- Python `a - b`: numeric only. -/
def pySub (a b : Val) : Res Val :=
  match a.toNum, b.toNum with
  | some x, some y =>
      match intLike x, intLike y with
      | some m, some n => .ok (.int (m - n))
      | _, _ => .ok (.float (ratSub x.rat y.rat))
  | _, _ => .error (.typeError "unsupported operand types for -")

/-- Python sequence repetition `seq * n` (non-positive `n` gives empty). -/
def seqRepeat {α : Type} (l : List α) (n : ℤ) : List α :=
  (List.replicate n.toNat l).flatten

/-- Python `a * b`: numeric multiplication, or sequence repetition when one
operand is a string or list and the other is `int`-like. -/
def pyMul (a b : Val) : Res Val :=
  match a.toNum, b.toNum with
  | some x, some y =>
      match intLike x, intLike y with
      | some m, some n => .ok (.int (m * n))
      | _, _ => .ok (.float (ratMul x.rat y.rat))
  | some x, Option.none =>
      match intLike x, b with
      | some m, .str t => .ok (.str ⟨seqRepeat t.data m⟩)
      | some m, .list ys => .ok (.list (seqRepeat ys m))
      | _, _ => .error (.typeError "cannot multiply")
  | Option.none, some y =>
      match a, intLike y with
      | .str s, some n => .ok (.str ⟨seqRepeat s.data n⟩)
      | .list xs, some n => .ok (.list (seqRepeat xs n))
      | _, _ => .error (.typeError "cannot multiply")
  | _, _ => .error (.typeError "cannot multiply")

/-- Python true division `a / b`: always a float; ZeroDivisionError on a zero
divisor; TypeError on non-numerics. -/
def pyDiv (a b : Val) : Res Val :=
  match a.toNum, b.toNum with
  | some x, some y =>
      if y.rat = 0 then .error .zeroDivision
      else .ok (.float (ratDiv x.rat y.rat))
  | _, _ => .error (.typeError "unsupported operand types for /")

/-- Python `int(x)` at the interpreter's call sites (always numeric there). -/
def pyToInt (v : Val) : Res Val :=
  match v.toNum with
  | some x => .ok (.int x.toIntZ)
  | Option.none => .error (.typeError "int() argument must be numeric")

/-- Python truthiness.  (The only dicts in the model are operation
dictionaries, which are non-empty, hence truthy.) -/
def truthy : Val → Bool
  | .none => false
  | .bool b => b
  | .int n => n != 0
  | .float q => q != 0
  | .str s => !s.data.isEmpty
  | .list vs => !vs.isEmpty
  | .dict _ => true

/-! ### Dates

Minimal model of `datetime` values as proleptic-Gregorian calendar dates, with
`fromisoformat` parsing of `YYYY-MM-DD` strings and a day ordinal for
subtraction (the engine only ever subtracts dates). -/

structure PyDate where
  year : ℤ
  month : ℤ
  day : ℤ
deriving DecidableEq

def isLeapY (y : ℤ) : Bool := (y % 4 == 0 && y % 100 != 0) || y % 400 == 0

def daysInMonthZ (y m : ℤ) : ℤ :=
  if m = 2 then (if isLeapY y then 29 else 28)
  else if m = 4 ∨ m = 6 ∨ m = 9 ∨ m = 11 then 30
  else 31

def daysBeforeMonthZ (y m : ℤ) : ℤ :=
  let base :=
    if m = 1 then 0 else if m = 2 then 31 else if m = 3 then 59
    else if m = 4 then 90 else if m = 5 then 120 else if m = 6 then 151
    else if m = 7 then 181 else if m = 8 then 212 else if m = 9 then 243
    else if m = 10 then 273 else if m = 11 then 304 else 334
  if 3 ≤ m ∧ isLeapY y then base + 1 else base

/-- Day ordinal of a date (Python `date.toordinal`); differences of ordinals
are `timedelta.days` for date-valued datetimes. -/
def dateOrdinal (d : PyDate) : ℤ :=
  let y := d.year - 1
  365 * y + y / 4 - y / 100 + y / 400 + daysBeforeMonthZ d.year d.month + d.day

def digitValZ (c : Char) : ℤ := (c.toNat : ℤ) - 48

def parseISODate (s : String) : Option PyDate :=
  match s.data with
  | [y1, y2, y3, y4, '-', m1, m2, '-', d1, d2] =>
      if [y1, y2, y3, y4, m1, m2, d1, d2].all isDigitCh then
        let y := 1000 * digitValZ y1 + 100 * digitValZ y2 + 10 * digitValZ y3 + digitValZ y4
        let m := 10 * digitValZ m1 + digitValZ m2
        let d := 10 * digitValZ d1 + digitValZ d2
        if 1 ≤ y ∧ 1 ≤ m ∧ m ≤ 12 ∧ 1 ≤ d ∧ d ≤ daysInMonthZ y m then
          some ⟨y, m, d⟩
        else Option.none
      else Option.none
  | _ => Option.none

/-- Coercion used by SUBTRACT_DATE: a value that is not already a datetime
goes through `datetime.fromisoformat(str(value))`.  Only ISO date strings
parse; anything else raises ValueError.  (No runtime value of the model is a
datetime, so only strings can succeed.) -/
def toPyDate (v : Val) : Res PyDate :=
  match v with
  | .str s =>
      match parseISODate s with
      | some d => .ok d
      | Option.none => .error (.valueError "invalid isoformat string")
  | _ => .error (.valueError "invalid isoformat string")

/-- Python tuple comparison `(a1, a2) < (b1, b2)`. -/
def pairsLtB (a b : ℤ × ℤ) : Bool := a.1 < b.1 || (a.1 == b.1 && a.2 < b.2)

/-- `_evaluate_date_operation` (engine.py lines 439-467): only SUBTRACT_DATE
is given a result; for every other operation name control falls off the end
of the function, returning Python `None`. -/
def dateOperation (op : String) (values : List Val) (unit : String) : Res Val :=
  if op == "SUBTRACT_DATE" then
    match values with
    | [e, s] => do
        let ed ← toPyDate e
        let sd ← toPyDate s
        if unit == "days" then
          .ok (.int (dateOrdinal ed - dateOrdinal sd))
        else if unit == "years" then
          .ok (.int (ed.year - sd.year -
            (if pairsLtB (ed.month, ed.day) (sd.month, sd.day) then 1 else 0)))
        else if unit == "months" then
          .ok (.int ((ed.year - sd.year) * 12 + ed.month - sd.month))
        else .ok (.int 0)
    | _ => .ok (.int 0)
  else .ok .none

/-! ### Rule context and value resolution -/

structure ServiceRef where
  service : String
  law : String
  field : String
deriving DecidableEq

structure SourceRef where
  table : Option String := Option.none
  field : Option String := Option.none
deriving DecidableEq

/-- One property specification from `properties.input` / `properties.sources`:
exactly the keys `resolve_value` reads.  An absent or empty
`service_reference` / `source_reference` dict (both falsy in the source) is
`Option.none`. -/
structure PropSpec where
  serviceRef : Option ServiceRef := Option.none
  sourceRef : Option SourceRef := Option.none
  temporal : Option Val := Option.none

/-- The ServiceProvider capability
`get_value(service, law, field, temporal, context, overwrite_input)`,
modelled as a pure function. -/
structure Provider where
  getValue : String → String → String → Val → List (String × Val) → List (String × Val) → Val

/-- Python dict assignment `m[k] = v` on an association list. -/
def dictSet {α : Type} (m : List (String × α)) (k : String) (v : α) : List (String × α) :=
  match m with
  | [] => [(k, v)]
  | (k', v') :: rest => if k' == k then (k, v) :: rest else (k', v') :: dictSet rest k v

/-- Python `set.add` for the accessed-paths set. -/
def addAccess (s : List String) (p : String) : List String :=
  if s.contains p then s else s ++ [p]

/-- `RuleContext`: the per-evaluation mutable state of the engine.  The trace
stack is handled functionally by the evaluator, so it is not a field here.
`serviceCalls` is instrumentation: the (externally observable) sequence of
`ServiceProvider.get_value` invocations, in order. -/
structure Ctx where
  definitions : List (String × Val)
  provider : Option Provider
  serviceContext : List (String × Val)
  propertySpecs : List (String × PropSpec)
  outputSpecs : List (String × TypeSpec)
  sources : Option (List (String × List (String × Val)))
  accessedPaths : List String := []
  valuesCache : List (String × Val) := []
  overwriteInput : List (String × Val) := []
  calculationDate : Option String := Option.none
  serviceCalls : List (String × String × String) := []

def optStrVal : Option String → Val
  | some s => .str s
  | Option.none => .none

/-- Stage 7 of `resolve_value`: the ServiceProvider lookup (engine.py lines
157-175), falling through to the warning-and-return-null path. -/
def resolveService (ctx : Ctx) (p : String) (spec? : Option PropSpec) : Res (Val × Ctx) :=
  match spec? with
  | some spec =>
      match spec.serviceRef with
      | some sr =>
          match ctx.provider with
          | some prov =>
              match spec.temporal with
              | some temp =>
                  let v := prov.getValue sr.service sr.law sr.field temp
                    ctx.serviceContext ctx.overwriteInput
                  .ok (v,
                    { ctx with
                      valuesCache := dictSet ctx.valuesCache p v
                      serviceCalls := ctx.serviceCalls ++ [(sr.service, sr.law, sr.field)] })
              | Option.none => .error (.keyError "temporal")
          | Option.none => .ok (.none, ctx)
      | Option.none => .ok (.none, ctx)
  | Option.none => .ok (.none, ctx)

/-- Stage 6 of `resolve_value`: the sources lookup (engine.py lines 144-155). -/
def resolveSource (ctx : Ctx) (p : String) (spec? : Option PropSpec) : Res (Val × Ctx) :=
  match spec? with
  | some spec =>
      match spec.sourceRef with
      | some sref =>
          match ctx.sources with
          | some srcs =>
              match sref.table with
              | some t =>
                  match sref.field with
                  | some fl =>
                      match srcs.lookup t with
                      | some tbl =>
                          match tbl.lookup fl with
                          | some v =>
                              .ok (v,
                                { ctx with valuesCache := dictSet ctx.valuesCache p v })
                          | Option.none => resolveService ctx p spec?
                      | Option.none => resolveService ctx p spec?
                  | Option.none => resolveService ctx p spec?
              | Option.none => resolveService ctx p spec?
          | Option.none => resolveService ctx p spec?
      | Option.none => resolveService ctx p spec?
  | Option.none => resolveService ctx p spec?

/-- Stage 5 of `resolve_value`: the caller-override lookup keyed
`"@{service}.{field}"` (engine.py lines 130-142). -/
def resolveOverride (ctx : Ctx) (p : String) (spec? : Option PropSpec) : Res (Val × Ctx) :=
  match spec? with
  | some spec =>
      match spec.serviceRef with
      | some sr =>
          match ctx.overwriteInput.lookup ("@" ++ sr.service ++ "." ++ sr.field) with
          | some v => .ok (v, { ctx with valuesCache := dictSet ctx.valuesCache p v })
          | Option.none => resolveSource ctx p spec?
      | Option.none => resolveSource ctx p spec?
  | Option.none => resolveSource ctx p spec?

/-- `RuleContext.resolve_value` (engine.py lines 109-177): non-references pass
through; a `$`-reference is tracked and resolved by priority
calculation_date → definitions → cache → override → source → service,
returning null when nothing applies. -/
def resolveValue (ctx : Ctx) (path : Val) : Res (Val × Ctx) :=
  match path with
  | .str s =>
      if strIsRef s then
        let p := strTail s
        let ctx1 := { ctx with accessedPaths := addAccess ctx.accessedPaths p }
        if p == "calculation_date" then .ok (optStrVal ctx1.calculationDate, ctx1)
        else
          match ctx1.definitions.lookup p with
          | some v => .ok (v, ctx1)
          | Option.none =>
              match ctx1.valuesCache.lookup p with
              | some v => .ok (v, ctx1)
              | Option.none => resolveOverride ctx1 p (ctx1.propertySpecs.lookup p)
      else .ok (.str s, ctx)
  | v => .ok (v, ctx)

/-! ### Trace nodes -/

/-- Node for tracking the evaluation path (`PathNode` dataclass).  `details`
values are engine values; composite detail entries (the IF node's
`condition_results` list of dicts) are encoded as lists of key-value pairs. -/
inductive PathNode where
  | mk (type : String) (name : String) (result : Val)
      (details : List (String × Val)) (children : List PathNode)

def PathNode.type : PathNode → String
  | .mk t _ _ _ _ => t

def PathNode.name : PathNode → String
  | .mk _ n _ _ _ => n

def PathNode.result : PathNode → Val
  | .mk _ _ r _ _ => r

def PathNode.details : PathNode → List (String × Val)
  | .mk _ _ _ d _ => d

def PathNode.children : PathNode → List PathNode
  | .mk _ _ _ _ c => c

def condResultVal (kvs : List (String × Val)) : Val :=
  .list (kvs.map (fun kv => .list [.str kv.1, kv.2]))

/-! ### Operation tables and pure operation semantics -/

def COMPARISON_OPS : List String :=
  ["EQUALS", "NOT_EQUALS", "GREATER_THAN", "LESS_THAN", "GREATER_OR_EQUAL", "LESS_OR_EQUAL"]

def ARITHMETIC_OPS : List String :=
  ["MIN", "MAX", "ADD", "MULTIPLY", "SUBTRACT", "DIVIDE"]

/-- Python `x in ys` membership via `==`. -/
def pyIn (f : ℕ) (x : Val) : List Val → Res Bool
  | [] => .ok false
  | y :: ys => do
      let h ← pyEq f x y
      if h then .ok true else pyIn f x ys

/-- `_evaluate_comparison` (engine.py lines 432-437) via the
`COMPARISON_OPS` table of `operator` functions. -/
def evalComparison (f : ℕ) (op : String) (a b : Val) : Res Val :=
  match op with
  | "EQUALS" => do
      let r ← pyEq f a b
      .ok (.bool r)
  | "NOT_EQUALS" => do
      let r ← pyEq f a b
      .ok (.bool (!r))
  | "GREATER_THAN" => do
      let r ← pyLt f b a
      .ok (.bool r)
  | "LESS_THAN" => do
      let r ← pyLt f a b
      .ok (.bool r)
  | "GREATER_OR_EQUAL" => do
      let r ← pyLe f b a
      .ok (.bool r)
  | "LESS_OR_EQUAL" => do
      let r ← pyLe f a b
      .ok (.bool r)
  | _ => .error (.keyError op)

/-- The `MULTIPLY` fold step (engine.py lines 408-412):
`int(x * y) if isinstance(y, float) and y < 1 else x * y`. -/
def multStep (x y : Val) : Res Val :=
  match y with
  | .float qy =>
      if qy < 1 then do
        let p ← pyMul x y
        pyToInt p
      else pyMul x y
  | _ => pyMul x y

def multFold : Val → List Val → Res Val
  | x, [] => .ok x
  | x, y :: ys => do
      let x2 ← multStep x y
      multFold x2 ys

def subFold : Val → List Val → Res Val
  | x, [] => .ok x
  | x, y :: ys => do
      let x2 ← pySub x y
      subFold x2 ys

/-- Python `sum(values)`: a left fold of `+` starting from the int `0`. -/
def sumFold : Val → List Val → Res Val
  | x, [] => .ok x
  | x, y :: ys => do
      let x2 ← pyAdd x y
      sumFold x2 ys

/-- Python `min(values)`: keep the current value unless the next is smaller. -/
def minFold (f : ℕ) : Val → List Val → Res Val
  | x, [] => .ok x
  | x, y :: ys => do
      let lt ← pyLt f y x
      minFold f (if lt then y else x) ys

/-- Python `max(values)`: keep the current value unless the next is greater. -/
def maxFold (f : ℕ) : Val → List Val → Res Val
  | x, [] => .ok x
  | x, y :: ys => do
      let gt ← pyLt f x y
      maxFold f (if gt then y else x) ys

/-- The `0 in vals[1:]` divisor test of `DIVIDE` (Python `in` uses `==`). -/
def containsZero (f : ℕ) : List Val → Res Bool
  | [] => .ok false
  | y :: ys => do
      let h ← pyEq f (.int 0) y
      if h then .ok true else containsZero f ys

/-- The `DIVIDE` fold step (engine.py line 416):
`int(x / y) if y != 0 else 0`. -/
def divStep (f : ℕ) (x y : Val) : Res Val := do
  let hz ← pyEq f y (.int 0)
  if hz then .ok (.int 0)
  else do
    let q ← pyDiv x y
    pyToInt q

def divFold (f : ℕ) : Val → List Val → Res Val
  | x, [] => .ok x
  | x, y :: ys => do
      let x2 ← divStep f x y
      divFold f x2 ys

/-- `_evaluate_arithmetic` (engine.py lines 404-430): empty value lists give
`0`, otherwise dispatch through the `ARITHMETIC_OPS` table. -/
def evalArithmetic (f : ℕ) (op : String) (values : List Val) : Res Val :=
  if values.isEmpty then .ok (.int 0)
  else
    match op, values with
    | "MIN", x :: xs => minFold f x xs
    | "MAX", x :: xs => maxFold f x xs
    | "ADD", xs => sumFold (.int 0) xs
    | "MULTIPLY", x :: xs => multFold x xs
    | "SUBTRACT", x :: xs => subFold x xs
    | "DIVIDE", x :: xs => do
        let hz ← containsZero f xs
        if hz then .ok (.int 0) else divFold f x xs
    | _, _ => .error (.keyError op)

/-! ### The recursive interpreter

All mutual functions take fuel as their first argument and decrement it on
every recursive call, so the block is structurally recursive on the fuel and
kernel-computable.  Trace nodes are built functionally: each function returns
the nodes that the corresponding Python code would have attached to the
current trace cursor. -/

mutual

/-- `_evaluate_value` (engine.py lines 586-593). -/
def evaluateValue : ℕ → Val → Ctx → Res (Val × List PathNode × Ctx)
  | 0, _, _ => .error .fuel
  | f + 1, v, ctx =>
    match v with
    | .bool b => .ok (.bool b, [], ctx)
    | .int n => .ok (.int n, [], ctx)
    | .float q => .ok (.float q, [], ctx)
    | .dict d =>
        if d.operation.isSome then do
          let (r, node, ctx') ← evaluateOperation f (.dict d) ctx
          .ok (r, [node], ctx')
        else do
          let (r, ctx') ← resolveValue ctx (.dict d)
          .ok (r, [], ctx')
    | other => do
        let (r, ctx') ← resolveValue ctx other
        .ok (r, [], ctx')

def evalValueList : ℕ → List Val → Ctx → Res (List Val × List PathNode × Ctx)
  | 0, _, _ => .error .fuel
  | _ + 1, [], ctx => .ok ([], [], ctx)
  | f + 1, v :: vs, ctx => do
      let (r, ns1, ctx1) ← evaluateValue f v ctx
      let (rs, ns2, ctx2) ← evalValueList f vs ctx1
      .ok (r :: rs, ns1 ++ ns2, ctx2)

/-- The condition loop of `_evaluate_if_operation` (engine.py lines 358-393),
carrying the enumeration index; returns the result, the accumulated
`condition_results` detail entries, the child nodes, and the context. -/
def evalIfConds : ℕ → ℤ → List CondDict → Ctx → Res (Val × List Val × List PathNode × Ctx)
  | 0, _, _, _ => .error .fuel
  | _ + 1, _, [], ctx => .ok (.int 0, [], [], ctx)
  | f + 1, i, c :: cs, ctx =>
      match c with
      | .test t th => do
          let (tr, tnode, ctx1) ← evaluateOperation f t ctx
          if truthy tr then do
            let (res, ns2, ctx2) ← evaluateValue f th ctx1
            let cr := condResultVal [("condition_index", .int i), ("type", .str "test"),
              ("test_result", tr), ("then_value", res)]
            .ok (res, [cr], tnode :: ns2, ctx2)
          else do
            let cr := condResultVal [("condition_index", .int i), ("type", .str "test"),
              ("test_result", tr)]
            let (res, crs, ns, ctx2) ← evalIfConds f (i + 1) cs ctx1
            .ok (res, cr :: crs, tnode :: ns, ctx2)
      | .els e => do
          let (res, ns, ctx1) ← evaluateValue f e ctx
          let cr := condResultVal [("condition_index", .int i), ("type", .str "else"),
            ("else_value", res)]
          .ok (res, [cr], ns, ctx1)
      | .other => do
          let cr := condResultVal [("condition_index", .int i), ("type", .str "else")]
          let (res, crs, ns, ctx1) ← evalIfConds f (i + 1) cs ctx
          .ok (res, cr :: crs, ns, ctx1)

/-- `_evaluate_operation` (engine.py lines 469-584). -/
def evaluateOperation : ℕ → Val → Ctx → Res (Val × PathNode × Ctx)
  | 0, _, _ => .error .fuel
  | f + 1, opv, ctx =>
    match opv with
    | .dict d =>
        if d.value.isSome && (match d.operation with
            | Option.none => true
            | some s => s.data.isEmpty) then do
          let ve := d.value.getD .none
          let (r, ns, ctx') ← evaluateValue f ve ctx
          .ok (r, PathNode.mk "direct_value" "Direct value assignment" r
            [("raw_value", ve)] ns, ctx')
        else
          match d.operation with
          | Option.none =>
              .error (.typeError "argument of type NoneType is not iterable")
          | some ot =>
              if ot == "IF" then do
                let (r, crs, children, ctx') ← evalIfConds f 0 d.conditions ctx
                let ifNode := PathNode.mk "operation" "IF conditions" r
                  [("condition_results", .list crs)] children
                .ok (r, PathNode.mk "operation" ("Operation: " ++ ot) r
                  [("operation_type", .str ot)] [ifNode], ctx')
              else if ot == "IN" then
                match d.subject with
                | Option.none => .error (.keyError "subject")
                | some subjE => do
                    let (sv, ns1, ctx1) ← evaluateValue f subjE ctx
                    let (av, ns2, ctx2) ← evaluateValue f (d.values.getD (.list [])) ctx1
                    let allowed := match av with
                      | .list l => l
                      | x => [x]
                    let r ← pyIn f sv allowed
                    .ok (.bool r, PathNode.mk "operation" ("Operation: " ++ ot) (.bool r)
                      [("operation_type", .str ot), ("subject_value", sv),
                       ("allowed_values", av)] (ns1 ++ ns2), ctx2)
              else if ot == "NOT_NULL" then
                match d.subject with
                | Option.none => .error (.keyError "subject")
                | some subjE => do
                    let (sv, ns1, ctx1) ← evaluateValue f subjE ctx
                    let r : Bool := match sv with
                      | .none => false
                      | _ => true
                    .ok (.bool r, PathNode.mk "operation" ("Operation: " ++ ot) (.bool r)
                      [("operation_type", .str ot), ("subject_value", sv)] ns1, ctx1)
              else if ot == "AND" then
                match d.values with
                | some (.list vs) => do
                    let (rs, ns, ctx1) ← evalValueList f vs ctx
                    let r := rs.all truthy
                    .ok (.bool r, PathNode.mk "operation" ("Operation: " ++ ot) (.bool r)
                      [("operation_type", .str ot), ("evaluated_values", .list rs)] ns, ctx1)
                | some _ => .error (.typeError "values is not iterable")
                | Option.none => .error (.keyError "values")
              else if ot == "OR" then
                match d.values with
                | some (.list vs) => do
                    let (rs, ns, ctx1) ← evalValueList f vs ctx
                    let r := rs.any truthy
                    .ok (.bool r, PathNode.mk "operation" ("Operation: " ++ ot) (.bool r)
                      [("operation_type", .str ot), ("evaluated_values", .list rs)] ns, ctx1)
                | some _ => .error (.typeError "values is not iterable")
                | Option.none => .error (.keyError "values")
              else if strHasSub ot "_DATE" then
                match d.values with
                | some (.list vs) => do
                    let (rs, ns, ctx1) ← evalValueList f vs ctx
                    let unit := (d.unit).getD "days"
                    let r ← dateOperation ot rs unit
                    .ok (r, PathNode.mk "operation" ("Operation: " ++ ot) r
                      [("operation_type", .str ot), ("evaluated_values", .list rs),
                       ("unit", .str unit)] ns, ctx1)
                | some _ => .error (.typeError "values is not iterable")
                | Option.none => .error (.keyError "values")
              else if COMPARISON_OPS.contains ot && d.subject.isSome then
                match d.subject, d.value with
                | some subjE, some valE => do
                    let (sv, ns1, ctx1) ← evaluateValue f subjE ctx
                    let (vv, ns2, ctx2) ← evaluateValue f valE ctx1
                    let r ← evalComparison f ot sv vv
                    .ok (r, PathNode.mk "operation" ("Operation: " ++ ot) r
                      [("operation_type", .str ot), ("subject_value", sv),
                       ("comparison_value", vv), ("comparison_type", .str ot)]
                      (ns1 ++ ns2), ctx2)
                | some _, Option.none => .error (.keyError "value")
                | Option.none, _ => .error (.keyError "subject")
              else if ARITHMETIC_OPS.contains ot && d.values.isSome then
                match d.values with
                | some (.list vs) => do
                    let (rs, ns, ctx1) ← evalValueList f vs ctx
                    let r ← evalArithmetic f ot rs
                    .ok (r, PathNode.mk "operation" ("Operation: " ++ ot) r
                      [("operation_type", .str ot), ("raw_values", .list vs),
                       ("evaluated_values", .list rs), ("arithmetic_type", .str ot)] ns, ctx1)
                | some _ => .error (.typeError "values is not iterable")
                | Option.none => .error (.keyError "values")
              else
                .ok (.int 0, PathNode.mk "operation" ("Operation: " ++ ot) (.int 0)
                  [("operation_type", .str ot), ("error", .str "Invalid operation format")]
                  [], ctx)
    | v => do
        let (r, ns, ctx') ← evaluateValue f v ctx
        .ok (r, PathNode.mk "value" "Direct value evaluation" r [("raw_value", v)] ns, ctx')

end

/-! ### Rule specifications and the engine -/

/-- A requirement: a dict with an `all` key, an `or` key, or a plain
operation dict (engine.py lines 333-346). -/
inductive ReqDict where
  | all (reqs : List ReqDict)
  | or (reqs : List ReqDict)
  | op (o : OpDict)

/-- One action dict: the `output` key plus the operation-dict keys the
evaluator may read from the same dict (`value`, `operation`, ...). -/
structure ActionDict where
  output : String
  op : OpDict

/-- One entry of `properties.input` / `properties.sources`: a property spec
dict with an optional `name` key. -/
structure PropEntry where
  name : Option String := Option.none
  spec : PropSpec := {}

/-- One entry of `properties.output`. -/
structure OutputPropEntry where
  name : Option String := Option.none
  type : Option String := Option.none
  description : Option String := Option.none
  typeSpec : Option TypeSpec := Option.none
  temporal : Option Val := Option.none

structure Properties where
  definitions : List (String × Val) := []
  input : List PropEntry := []
  sources : List PropEntry := []
  output : List OutputPropEntry := []

/-- The law specification consumed by the engine constructor. -/
structure RuleSpec where
  service : Option String := Option.none
  law : Option String := Option.none
  properties : Properties := {}
  requirements : List ReqDict := []
  actions : List ActionDict := []

/-- `RulesEngine._build_property_specs` (engine.py lines 194-209): input
properties first, then source properties, keyed by their `name`. -/
def buildPropertySpecs (props : Properties) : List (String × PropSpec) :=
  (props.input ++ props.sources).foldl
    (fun m e =>
      match e.name with
      | some n => dictSet m n e.spec
      | Option.none => m) []

/-- `RulesEngine._build_output_specs` (engine.py lines 211-224). -/
def buildOutputSpecs (props : Properties) : List (String × TypeSpec) :=
  props.output.foldl
    (fun m e =>
      match e.name with
      | some n => dictSet m n (e.typeSpec.getD {})
      | Option.none => m) []

/-- The `RulesEngine` constructor state (engine.py lines 183-192). -/
structure RulesEngine where
  serviceName : Option String
  law : Option String
  definitions : List (String × Val)
  requirements : List ReqDict
  actions : List ActionDict
  spec : RuleSpec
  propertySpecs : List (String × PropSpec)
  outputSpecs : List (String × TypeSpec)
  serviceProvider : Option Provider

def RulesEngine.make (spec : RuleSpec) (provider : Option Provider) : RulesEngine :=
  { serviceName := spec.service
    law := spec.law
    definitions := spec.properties.definitions
    requirements := spec.requirements
    actions := spec.actions
    spec := spec
    propertySpecs := buildPropertySpecs spec.properties
    outputSpecs := buildOutputSpecs spec.properties
    serviceProvider := provider }

/-- `RulesEngine._enforce_output_type` (engine.py lines 226-230). -/
def enforceOutputType (eng : RulesEngine) (name : String) (v : Val) : Val :=
  match eng.outputSpecs.lookup name with
  | some ts => ts.enforce v
  | Option.none => v

/-! ### The requirement evaluator -/

mutual

/-- `_evaluate_requirements` (engine.py lines 320-356): an empty list is
vacuously met, otherwise the requirement loop runs. -/
def evaluateRequirements : ℕ → List ReqDict → Ctx → Res (Bool × List PathNode × Ctx)
  | 0, _, _ => .error .fuel
  | f + 1, rs, ctx =>
      if rs.isEmpty then .ok (true, [], ctx)
      else evalReqLoop f rs ctx

/-- One iteration body of the requirement loop: evaluate a single requirement
(`all` / `or` / plain operation) producing its value and its trace node. -/
def evalOneReq : ℕ → ReqDict → Ctx → Res (Val × PathNode × Ctx)
  | 0, _, _ => .error .fuel
  | f + 1, r, ctx =>
      match r with
      | .all cs => do
          let (bs, children, ctx1) ← evalReqItems f cs ctx
          let b := bs.all id
          .ok (.bool b, PathNode.mk "requirement" "Check ALL conditions" (.bool b) []
            children, ctx1)
      | .or cs => do
          let (bs, children, ctx1) ← evalReqItems f cs ctx
          let b := bs.any id
          .ok (.bool b, PathNode.mk "requirement" "Check OR conditions" (.bool b) []
            children, ctx1)
      | .op o => do
          let (v, n, ctx1) ← evaluateOperation f (.dict o) ctx
          .ok (v, PathNode.mk "requirement" "Test condition" v [] [n], ctx1)

/-- The requirement loop: the first falsy requirement returns `False`
immediately, otherwise continue with the rest. -/
def evalReqLoop : ℕ → List ReqDict → Ctx → Res (Bool × List PathNode × Ctx)
  | 0, _, _ => .error .fuel
  | _ + 1, [], ctx => .ok (true, [], ctx)
  | f + 1, r :: rest, ctx => do
      let (resV, node, ctx1) ← evalOneReq f r ctx
      if truthy resV then do
        let (b, ns, ctx2) ← evalReqLoop f rest ctx1
        .ok (b, node :: ns, ctx2)
      else .ok (false, [node], ctx1)

/-- The `[await self._evaluate_requirements([r], context) for r in req['all']]`
comprehension: every child is evaluated (no short-circuit inside all/or). -/
def evalReqItems : ℕ → List ReqDict → Ctx → Res (List Bool × List PathNode × Ctx)
  | 0, _, _ => .error .fuel
  | _ + 1, [], ctx => .ok ([], [], ctx)
  | f + 1, r :: rest, ctx => do
      let (b, ns1, ctx1) ← evaluateRequirements f [r] ctx
      let (bs, ns2, ctx2) ← evalReqItems f rest ctx1
      .ok (b :: bs, ns1 ++ ns2, ctx2)

end

/-! ### Actions and the evaluation facade -/

/-- The output metadata object built by `_evaluate_action`
(engine.py lines 307-317). -/
structure OutputDef where
  value : Val
  type : String
  description : String
  typeSpec : Option TypeSpec := Option.none
  temporal : Option Val := Option.none

/-- `_evaluate_action` (engine.py lines 280-318): override check against
`"@{service}.{output}"`, else the `value` key, else the whole action dict as
an operation; then output type enforcement and metadata packaging. -/
def evaluateAction (f : ℕ) (eng : RulesEngine) (action : ActionDict) (ctx : Ctx) :
    Res (OutputDef × String × PathNode × Ctx) := do
  let outputName := action.output
  let outputSpec := (eng.spec.properties.output.find?
    (fun e => e.name == some outputName)).getD {}
  let servicePath := "@" ++ optStr eng.serviceName ++ "." ++ outputName
  let (raw, children, ctx1) ←
    match ctx.overwriteInput.lookup servicePath with
    | some v => (.ok (v, ([] : List PathNode), ctx) : Res (Val × List PathNode × Ctx))
    | Option.none =>
        match action.op.value with
        | some ve => evaluateValue f ve ctx
        | Option.none => do
            let (r, n, ctx') ← evaluateOperation f (.dict action.op) ctx
            (.ok (r, [n], ctx') : Res (Val × List PathNode × Ctx))
  let result := enforceOutputType eng outputName raw
  let odef : OutputDef :=
    { value := result
      type := (outputSpec.type).getD "unknown"
      description := (outputSpec.description).getD ""
      typeSpec := outputSpec.typeSpec
      temporal := outputSpec.temporal }
  .ok (odef, outputName,
    PathNode.mk "action" ("Evaluate action for " ++ outputName) result [] children, ctx1)

/-- The action loop of `evaluate` (engine.py lines 263-271): skip an action
when `requested_output` is truthy and differs from its output name, else
evaluate it and store the output under its name. -/
def actionsLoop (f : ℕ) (eng : RulesEngine) :
    List ActionDict → Option String → List (String × OutputDef) → Ctx →
    Res (List (String × OutputDef) × List PathNode × Ctx)
  | [], _, acc, ctx => .ok (acc, [], ctx)
  | action :: rest, ro, acc, ctx =>
      let skip := match ro with
        | some flt => !flt.data.isEmpty && flt != action.output
        | Option.none => false
      if skip then actionsLoop f eng rest ro acc ctx
      else do
        let (odef, name, node, ctx1) ← evaluateAction f eng action ctx
        let (acc2, ns, ctx2) ← actionsLoop f eng rest ro (dictSet acc name odef) ctx1
        .ok (acc2, node :: ns, ctx2)

/-- The result object of `evaluate`. -/
structure EvalResult where
  input : List (String × Val)
  output : List (String × OutputDef)
  requirementsMet : Bool
  path : PathNode

/-- `RulesEngine.evaluate` (engine.py lines 232-278): build a fresh context,
check requirements, snapshot the values cache as `input`, run the (possibly
filtered) actions when requirements are met, and package the result with the
trace root. -/
def RulesEngine.evaluate (eng : RulesEngine) (f : ℕ)
    (serviceContext : List (String × Val)) (overwriteInput : List (String × Val))
    (sources : Option (List (String × List (String × Val))))
    (calculationDate : Option String) (requestedOutput : Option String) :
    Res EvalResult := do
  let ctx0 : Ctx :=
    { definitions := eng.definitions
      provider := eng.serviceProvider
      serviceContext := serviceContext
      propertySpecs := eng.propertySpecs
      outputSpecs := eng.outputSpecs
      sources := sources
      overwriteInput := overwriteInput
      calculationDate := calculationDate }
  let (reqMet, reqChildren, ctx1) ← evaluateRequirements f eng.requirements ctx0
  let reqNode := PathNode.mk "requirements" "Check all requirements" (.bool reqMet) []
    reqChildren
  let inputValues := ctx1.valuesCache
  let (outputValues, actionNodes, _ctx2) ←
    if reqMet then actionsLoop f eng eng.actions requestedOutput [] ctx1
    else (.ok ([], [], ctx1) : Res (List (String × OutputDef) × List PathNode × Ctx))
  .ok { input := inputValues
        output := outputValues
        requirementsMet := reqMet
        path := PathNode.mk "root" "evaluation" .none [] (reqNode :: actionNodes) }

/-! ### C1: the MULTIPLY fold -/

theorem toNum_toVal (x : PyNum) : x.toVal.toNum = some x := by
  cases x <;> rfl

/-- Python numeric multiplication: int-like times int-like is an int,
anything involving a float is a float. -/
def mulNum (x y : PyNum) : PyNum :=
  match intLike x, intLike y with
  | some m, some n => .pint (m * n)
  | _, _ => .pfloat (ratMul x.rat y.rat)

/-- The MULTIPLY step as the code implements it, on the numeric domain:
truncation toward zero applies exactly when the right operand is float-typed
and `y < 1` - including every negative float. -/
def multModelStep (x y : PyNum) : PyNum :=
  match y with
  | .pfloat qy => if qy < 1 then .pint (truncZ (ratMul x.rat qy)) else mulNum x y
  | _ => mulNum x y

def multModel : PyNum → List PyNum → PyNum
  | x, [] => x
  | x, y :: ys => multModel (multModelStep x y) ys

theorem pyMul_toVal (x y : PyNum) : pyMul x.toVal y.toVal = .ok (mulNum x y).toVal := by
  cases x <;> cases y <;>
    simp [pyMul, mulNum, PyNum.toVal, Val.toNum, intLike, PyNum.rat]

theorem multStep_toVal (x y : PyNum) :
    multStep x.toVal y.toVal = .ok (multModelStep x y).toVal := by
  cases y with
  | pfloat qy =>
      by_cases h : qy < 1 <;>
        cases x <;>
        simp [multStep, multModelStep, pyMul, mulNum, pyToInt, PyNum.toVal, Val.toNum,
          intLike, PyNum.rat, PyNum.toIntZ, h]
  | pbool b => cases x <;> rfl
  | pint n => cases x <;> rfl

theorem multFold_toVal (xs : List PyNum) : ∀ x : PyNum,
    multFold x.toVal (xs.map PyNum.toVal) = .ok (multModel x xs).toVal := by
  induction xs with
  | nil => intro x; rfl
  | cons y ys ih =>
      intro x
      simp only [List.map_cons, multFold, multStep_toVal, multModel]
      rw [show (Except.ok (multModelStep x y).toVal : Res Val) >>= _ =
        multFold (multModelStep x y).toVal (ys.map PyNum.toVal) from rfl]
      exact ih (multModelStep x y)

/-- C1 counterexample: the claim says no truncation occurs for a non-integer
factor `y ≤ -1`, predicting `MULTIPLY([3, -1.5]) = -4.5`.  The code's guard is
`isinstance(y, float) and y < 1`, which holds at `y = -1.5`, so the product is
truncated toward zero to `-4` - not even numerically equal to `-4.5`. -/
theorem c1_multiply_counterexample :
    evalArithmetic 9 "MULTIPLY" [.int 3, .float (mkRat (-3) 2)] = .ok (.int (-4)) ∧
    pyEq 9 (.int (-4)) (.float (mkRat (-9) 2)) = .ok false := by
  constructor <;> rfl

/-- C1 (amended): for numeric values, `MULTIPLY` is the left fold of
multiplication starting from the first element, where the running product is
coerced to an integer by truncation toward zero exactly when the right
operand `y` is a float-typed numeric with `y < 1` (hence also for every
negative float such as `-1.5`), and full-precision multiplication is used
otherwise. -/
theorem c1_multiply_amended (f : ℕ) (x : PyNum) (xs : List PyNum) :
    evalArithmetic f "MULTIPLY" ((x :: xs).map PyNum.toVal) =
      .ok (multModel x xs).toVal := by
  simp only [evalArithmetic, List.map_cons, List.isEmpty_cons, Bool.false_eq_true,
    if_false]
  exact multFold_toVal xs x

/-! ### C3: the DIVIDE fold -/

/-- The DIVIDE step on the numeric domain: an exact quotient truncated toward
zero to an integer. -/
def divModelStep (x y : PyNum) : PyNum := .pint (truncZ (ratDiv x.rat y.rat))

def divModelFold : PyNum → List PyNum → PyNum
  | x, [] => x
  | x, y :: ys => divModelFold (divModelStep x y) ys

/-- DIVIDE as claimed: `0` whenever some divisor is numerically zero,
otherwise the truncating left fold. -/
def divModel (x : PyNum) (ys : List PyNum) : PyNum :=
  if ys.any (fun y => y.rat == 0) then .pint 0 else divModelFold x ys

theorem pyEq_zero_toVal (f : ℕ) (y : PyNum) :
    pyEq (f + 1) (.int 0) y.toVal = .ok (y.rat == 0) := by
  cases y <;>
    simp [pyEq, PyNum.toVal, Val.toNum, PyNum.rat, ratOfInt_eq, eq_comm]

theorem containsZero_toVal (f : ℕ) (ys : List PyNum) :
    containsZero (f + 1) (ys.map PyNum.toVal) = .ok (ys.any (fun y => y.rat == 0)) := by
  induction ys with
  | nil => rfl
  | cons y ys ih =>
      simp only [List.map_cons, containsZero, pyEq_zero_toVal, List.any_cons, resBind_ok]
      by_cases h : y.rat = 0
      · simp [h]
      · have hb : (y.rat == 0) = false := by simpa using h
        simp only [hb, Bool.false_eq_true, if_false, Bool.false_or]
        exact ih

theorem divStep_toVal (f : ℕ) (x y : PyNum) (hy : ¬ y.rat = 0) :
    divStep (f + 1) x.toVal y.toVal = .ok (divModelStep x y).toVal := by
  have h0 : pyEq (f + 1) y.toVal (.int 0) = .ok false := by
    cases y <;>
      simp_all [pyEq, PyNum.toVal, Val.toNum, PyNum.rat, ratOfInt_eq]
  simp only [divStep, h0, resBind_ok, Bool.false_eq_true, if_false]
  have hdiv : pyDiv x.toVal y.toVal = .ok (.float (ratDiv x.rat y.rat)) := by
    simp [pyDiv, toNum_toVal, hy]
  rw [hdiv]
  rfl

theorem divFold_toVal (f : ℕ) (ys : List PyNum) : ∀ x : PyNum,
    (∀ y ∈ ys, ¬ y.rat = 0) →
    divFold (f + 1) x.toVal (ys.map PyNum.toVal) = .ok (divModelFold x ys).toVal := by
  induction ys with
  | nil => intro x _; rfl
  | cons y ys ih =>
      intro x hy
      simp only [List.map_cons, divFold,
        divStep_toVal f x y (hy y (List.mem_cons_self y ys)), divModelFold]
      rw [show (Except.ok (divModelStep x y).toVal : Res Val) >>= _ =
        divFold (f + 1) (divModelStep x y).toVal (ys.map PyNum.toVal) from rfl]
      exact ih (divModelStep x y) (fun z hz => hy z (List.mem_cons_of_mem y hz))

/-- C3: for numeric values `[v0, ..., vn]`, `DIVIDE` returns `0` whenever some
divisor among `v1..vn` is numerically zero, and otherwise is the left fold
starting from `v0` in which each partial quotient is truncated toward zero to
an integer; in particular `DIVIDE([10, 3]) = 3`, `DIVIDE([100, 3, 3]) = 11`,
and `DIVIDE([100, 0, 5]) = 0`. -/
theorem c3_divide :
    (∀ (f : ℕ) (x : PyNum) (xs : List PyNum),
      evalArithmetic (f + 1) "DIVIDE" ((x :: xs).map PyNum.toVal) =
        .ok (divModel x xs).toVal) ∧
    evalArithmetic 9 "DIVIDE" [.int 10, .int 3] = .ok (.int 3) ∧
    evalArithmetic 9 "DIVIDE" [.int 100, .int 3, .int 3] = .ok (.int 11) ∧
    evalArithmetic 9 "DIVIDE" [.int 100, .int 0, .int 5] = .ok (.int 0) := by
  refine ⟨fun f x xs => ?_, rfl, rfl, rfl⟩
  simp only [evalArithmetic, List.map_cons, List.isEmpty_cons, Bool.false_eq_true,
    if_false, containsZero_toVal, divModel, resBind_ok]
  by_cases h : xs.any (fun y => y.rat == 0)
  · simp [h, PyNum.toVal]
  · simp only [h, Bool.false_eq_true, if_false]
    refine divFold_toVal f xs x (fun y hy hy0 => ?_)
    have hall : ∀ y ∈ xs, ¬ y.rat = 0 := by simpa using h
    exact hall y hy hy0

/-! ### C10: date operations other than SUBTRACT_DATE -/

/-- A bare test context with nothing configured. -/
def ctxBase : Ctx :=
  { definitions := [], provider := Option.none, serviceContext := [],
    propertySpecs := [], outputSpecs := [], sources := Option.none }

theorem dateOperation_other (ot : String) (vs : List Val) (u : String)
    (hNe : ot ≠ "SUBTRACT_DATE") : dateOperation ot vs u = .ok .none := by
  have hb : (ot == "SUBTRACT_DATE") = false := by
    simpa using hNe
  simp [dateOperation, hb]

/-- C10: for every operation kind containing the substring `_DATE` other than
`SUBTRACT_DATE` (for example `ADD_DATE`), `_evaluate_operation` dispatches to
the date helper, which defines a result only for `SUBTRACT_DATE` and falls
off the end; the operation therefore yields Python `None` - not `0` with
`details.error = "Invalid operation format"` - and its trace node records
result `None` and carries no `error` detail. -/
theorem c10_date_fallthrough (f : ℕ) (ot : String) (v s : Option Val) (vs : List Val)
    (cs : List CondDict) (u : Option String) (ctx : Ctx) (r : Val) (n : PathNode)
    (c : Ctx)
    (hSub : strHasSub ot "_DATE" = true) (hNe : ot ≠ "SUBTRACT_DATE")
    (h : evaluateOperation (f + 1) (.dict (.mk (some ot) v s (some (.list vs)) cs u)) ctx
      = .ok (r, n, c)) :
    r = .none ∧ n.result = .none ∧ n.details.lookup "error" = Option.none := by
  have hNE : ot.data.isEmpty = false := by
    cases hd : ot.data with
    | nil =>
        rw [strHasSub, hd] at hSub
        exact absurd hSub (by decide)
    | cons a l => rfl
  have hIF : (ot == "IF") = false := by
    refine Bool.eq_false_iff.mpr (fun hc => ?_)
    rw [show ot = "IF" from by simpa using hc] at hSub
    exact absurd hSub (by decide)
  have hIN : (ot == "IN") = false := by
    refine Bool.eq_false_iff.mpr (fun hc => ?_)
    rw [show ot = "IN" from by simpa using hc] at hSub
    exact absurd hSub (by decide)
  have hNN : (ot == "NOT_NULL") = false := by
    refine Bool.eq_false_iff.mpr (fun hc => ?_)
    rw [show ot = "NOT_NULL" from by simpa using hc] at hSub
    exact absurd hSub (by decide)
  have hAND : (ot == "AND") = false := by
    refine Bool.eq_false_iff.mpr (fun hc => ?_)
    rw [show ot = "AND" from by simpa using hc] at hSub
    exact absurd hSub (by decide)
  have hOR : (ot == "OR") = false := by
    refine Bool.eq_false_iff.mpr (fun hc => ?_)
    rw [show ot = "OR" from by simpa using hc] at hSub
    exact absurd hSub (by decide)
  rw [evaluateOperation] at h
  simp only [OpDict.value, OpDict.operation, OpDict.values, OpDict.conditions,
    OpDict.subject, OpDict.unit, hNE, Bool.and_false, Bool.false_eq_true, if_false,
    hIF, hIN, hNN, hAND, hOR, hSub, if_true] at h
  cases hv : evalValueList f vs ctx with
  | error e =>
      rw [hv] at h
      simp at h
  | ok res =>
      obtain ⟨rs, ns, ctx1⟩ := res
      rw [hv] at h
      simp only [resBind_ok, dateOperation_other ot rs (u.getD "days") hNe] at h
      have h' := Except.ok.inj h
      simp only [Prod.mk.injEq] at h'
      obtain ⟨rfl, rfl, -⟩ := h'
      exact ⟨rfl, rfl, rfl⟩

/-- C10 witness at `ADD_DATE` with no values. -/
theorem c10_date_fallthrough_witness :
    (Val.none = Val.none) ∧
    (PathNode.mk "operation" "Operation: ADD_DATE" Val.none
      [("operation_type", .str "ADD_DATE"), ("evaluated_values", .list []),
       ("unit", .str "days")] []).result = Val.none ∧
    (PathNode.mk "operation" "Operation: ADD_DATE" Val.none
      [("operation_type", .str "ADD_DATE"), ("evaluated_values", .list []),
       ("unit", .str "days")] []).details.lookup "error" = Option.none :=
  c10_date_fallthrough 5 "ADD_DATE" Option.none Option.none [] [] Option.none ctxBase
    Val.none _ ctxBase (by decide) (by decide) rfl

/-! ### C4 and C8: resolution priority and cache determinism -/

theorem addAccess_idem (l : List String) (p : String) :
    addAccess (addAccess l p) p = addAccess l p := by
  by_cases h : p ∈ l
  · simp [addAccess, h]
  · simp [addAccess, h]

theorem dictSet_lookup_self {α : Type} (m : List (String × α)) (k : String) (v : α) :
    (dictSet m k v).lookup k = some v := by
  induction m with
  | nil => simp [dictSet, List.lookup]
  | cons kv rest ih =>
      obtain ⟨k', v'⟩ := kv
      by_cases h : k' = k
      · subst h
        simp [dictSet, List.lookup]
      · have h1 : (k' == k) = false := by simpa using h
        have h2 : (k == k') = false := by simpa using (Ne.symm h)
        simp [dictSet, List.lookup, h1, h2, ih]

theorem resolveOverride_hit (ctx : Ctx) (p : String) (spec : PropSpec) (sr : ServiceRef)
    (v : Val) (hsr : spec.serviceRef = some sr)
    (hov : ctx.overwriteInput.lookup ("@" ++ sr.service ++ "." ++ sr.field) = some v) :
    resolveOverride ctx p (some spec) =
      .ok (v, { ctx with valuesCache := dictSet ctx.valuesCache p v }) := by
  unfold resolveOverride
  simp only [hsr, hov]

theorem resolveOverride_noref (ctx : Ctx) (p : String) (spec : PropSpec)
    (hsr : spec.serviceRef = Option.none) :
    resolveOverride ctx p (some spec) = resolveSource ctx p (some spec) := by
  unfold resolveOverride
  simp only [hsr]

theorem resolveOverride_nohit (ctx : Ctx) (p : String) (spec : PropSpec) (sr : ServiceRef)
    (hsr : spec.serviceRef = some sr)
    (hov : ctx.overwriteInput.lookup ("@" ++ sr.service ++ "." ++ sr.field) = Option.none) :
    resolveOverride ctx p (some spec) = resolveSource ctx p (some spec) := by
  unfold resolveOverride
  simp only [hsr, hov]

theorem resolveSource_hit (ctx : Ctx) (p : String) (spec : PropSpec) (sref : SourceRef)
    (t fl : String) (srcs : List (String × List (String × Val)))
    (tbl : List (String × Val)) (v : Val)
    (hsrcs : ctx.sources = some srcs) (hsref : spec.sourceRef = some sref)
    (ht : sref.table = some t) (hfl : sref.field = some fl)
    (htbl : srcs.lookup t = some tbl) (hv : tbl.lookup fl = some v) :
    resolveSource ctx p (some spec) =
      .ok (v, { ctx with valuesCache := dictSet ctx.valuesCache p v }) := by
  unfold resolveSource
  simp only [hsrcs, hsref, ht, hfl, htbl, hv]

/-- C4: `resolve_value` obeys the priority order calculation_date →
definitions → values cache → caller override → source entry → service
provider.  Conjunct 4 places no constraint on the source table or the
provider, so an applicable override wins over both; conjunct 5 places no
constraint on the provider and returns a context whose `serviceCalls` log is
untouched, so a source entry wins over a configured provider without calling
it. -/
theorem c4_resolution_priority (ctx : Ctx) (s p : String)
    (hs : strIsRef s = true) (hp : strTail s = p) :
    (p = "calculation_date" →
      resolveValue ctx (.str s) = .ok (optStrVal ctx.calculationDate,
        { ctx with accessedPaths := addAccess ctx.accessedPaths p })) ∧
    (∀ v, p ≠ "calculation_date" → ctx.definitions.lookup p = some v →
      resolveValue ctx (.str s) = .ok (v,
        { ctx with accessedPaths := addAccess ctx.accessedPaths p })) ∧
    (∀ v, p ≠ "calculation_date" → ctx.definitions.lookup p = Option.none →
      ctx.valuesCache.lookup p = some v →
      resolveValue ctx (.str s) = .ok (v,
        { ctx with accessedPaths := addAccess ctx.accessedPaths p })) ∧
    (∀ spec sr v, p ≠ "calculation_date" →
      ctx.definitions.lookup p = Option.none →
      ctx.valuesCache.lookup p = Option.none →
      ctx.propertySpecs.lookup p = some spec →
      spec.serviceRef = some sr →
      ctx.overwriteInput.lookup ("@" ++ sr.service ++ "." ++ sr.field) = some v →
      resolveValue ctx (.str s) = .ok (v,
        { ctx with accessedPaths := addAccess ctx.accessedPaths p,
                   valuesCache := dictSet ctx.valuesCache p v })) ∧
    (∀ spec sref t fl srcs tbl v, p ≠ "calculation_date" →
      ctx.definitions.lookup p = Option.none →
      ctx.valuesCache.lookup p = Option.none →
      ctx.propertySpecs.lookup p = some spec →
      (∀ sr, spec.serviceRef = some sr →
        ctx.overwriteInput.lookup ("@" ++ sr.service ++ "." ++ sr.field) = Option.none) →
      spec.sourceRef = some sref → sref.table = some t → sref.field = some fl →
      ctx.sources = some srcs → srcs.lookup t = some tbl → tbl.lookup fl = some v →
      resolveValue ctx (.str s) = .ok (v,
        { ctx with accessedPaths := addAccess ctx.accessedPaths p,
                   valuesCache := dictSet ctx.valuesCache p v })) := by
  refine ⟨?_, ?_, ?_, ?_, ?_⟩
  · intro hcal
    rw [resolveValue]
    simp only [hs, if_true, hp, hcal]
    rfl
  · intro v hcal hdef
    have hcb : (p == "calculation_date") = false := by simpa using hcal
    rw [resolveValue]
    simp only [hs, if_true, hp, hcb, Bool.false_eq_true, if_false, hdef]
  · intro v hcal hdef hcache
    have hcb : (p == "calculation_date") = false := by simpa using hcal
    rw [resolveValue]
    simp only [hs, if_true, hp, hcb, Bool.false_eq_true, if_false, hdef, hcache]
  · intro spec sr v hcal hdef hcache hspec hsr hov
    have hcb : (p == "calculation_date") = false := by simpa using hcal
    rw [resolveValue]
    simp only [hs, if_true, hp, hcb, Bool.false_eq_true, if_false, hdef, hcache, hspec]
    exact resolveOverride_hit _ p spec sr v hsr hov
  · intro spec sref t fl srcs tbl v hcal hdef hcache hspec hov hsref ht hfl hsrcs htbl hv
    have hcb : (p == "calculation_date") = false := by simpa using hcal
    rw [resolveValue]
    simp only [hs, if_true, hp, hcb, Bool.false_eq_true, if_false, hdef, hcache, hspec]
    have hsrc : resolveSource
        { ctx with accessedPaths := addAccess ctx.accessedPaths p } p (some spec) =
        .ok (v, { ctx with accessedPaths := addAccess ctx.accessedPaths p,
                           valuesCache := dictSet ctx.valuesCache p v }) :=
      resolveSource_hit _ p spec sref t fl srcs tbl v hsrcs hsref ht hfl htbl hv
    cases hsr : spec.serviceRef with
    | none =>
        rw [resolveOverride_noref
          { ctx with accessedPaths := addAccess ctx.accessedPaths p } p spec hsr, hsrc]
    | some sr =>
        rw [resolveOverride_nohit
          { ctx with accessedPaths := addAccess ctx.accessedPaths p } p spec sr hsr
          (hov sr hsr), hsrc]

theorem resolveService_cases (c : Ctx) (p : String) (q : Option PropSpec) (v : Val)
    (c' : Ctx) (h : resolveService c p q = .ok (v, c')) :
    (c'.valuesCache.lookup p = some v ∧ c'.definitions = c.definitions ∧
      c'.accessedPaths = c.accessedPaths) ∨ (c' = c ∧ v = .none) := by
  unfold resolveService at h
  repeat' split at h
  any_goals (simp at h; done)
  any_goals
    (left
     simp only [Except.ok.injEq, Prod.mk.injEq] at h
     obtain ⟨hv0, hc⟩ := h
     subst hc
     refine ⟨?_, rfl, rfl⟩
     rw [← hv0]
     exact dictSet_lookup_self _ _ _)
  any_goals
    (right
     simp only [Except.ok.injEq, Prod.mk.injEq] at h
     obtain ⟨hv0, hc⟩ := h
     subst hc
     exact ⟨rfl, hv0.symm⟩)

theorem resolveSource_cases (c : Ctx) (p : String) (q : Option PropSpec) (v : Val)
    (c' : Ctx) (h : resolveSource c p q = .ok (v, c')) :
    (c'.valuesCache.lookup p = some v ∧ c'.definitions = c.definitions ∧
      c'.accessedPaths = c.accessedPaths) ∨ (c' = c ∧ v = .none) := by
  unfold resolveSource at h
  repeat' split at h
  any_goals (exact resolveService_cases _ _ _ _ _ h)
  any_goals
    (left
     simp only [Except.ok.injEq, Prod.mk.injEq] at h
     obtain ⟨hv0, hc⟩ := h
     subst hc
     refine ⟨?_, rfl, rfl⟩
     rw [← hv0]
     exact dictSet_lookup_self _ _ _)

theorem resolveOverride_cases (c : Ctx) (p : String) (q : Option PropSpec) (v : Val)
    (c' : Ctx) (h : resolveOverride c p q = .ok (v, c')) :
    (c'.valuesCache.lookup p = some v ∧ c'.definitions = c.definitions ∧
      c'.accessedPaths = c.accessedPaths) ∨ (c' = c ∧ v = .none) := by
  unfold resolveOverride at h
  repeat' split at h
  any_goals (exact resolveSource_cases _ _ _ _ _ h)
  any_goals
    (left
     simp only [Except.ok.injEq, Prod.mk.injEq] at h
     obtain ⟨hv0, hc⟩ := h
     subst hc
     refine ⟨?_, rfl, rfl⟩
     rw [← hv0]
     exact dictSet_lookup_self _ _ _)

/-- C8: `values_cache` is write-once per path within one evaluation: when a
first `resolve_value` call returns `(v, ctx')`, resolving the same path again
in `ctx'` returns exactly `v` and leaves the context unchanged - in
particular the `serviceCalls` log does not grow, so no second
`ServiceProvider.get_value` call is made for that path. -/
theorem c8_cache_write_once (ctx : Ctx) (x v : Val) (ctx' : Ctx)
    (h : resolveValue ctx x = .ok (v, ctx')) :
    resolveValue ctx' x = .ok (v, ctx') := by
  cases x with
  | str s =>
      by_cases hr : strIsRef s
      · rw [resolveValue] at h ⊢
        simp only [hr, if_true] at h ⊢
        split at h
        next hc =>
            simp only [Except.ok.injEq, Prod.mk.injEq] at h
            obtain ⟨hv, hctx⟩ := h
            subst hctx
            simp only [hc, if_true, addAccess_idem]
            rw [← hv]
        next hc =>
            split at h
            next v0 hdef =>
                simp only [Except.ok.injEq, Prod.mk.injEq] at h
                obtain ⟨hv, hctx⟩ := h
                subst hctx
                subst hv
                simp only [hc, Bool.false_eq_true, if_false, hdef, addAccess_idem]
            next hdef =>
                split at h
                next v0 hcache =>
                    simp only [Except.ok.injEq, Prod.mk.injEq] at h
                    obtain ⟨hv, hctx⟩ := h
                    subst hctx
                    subst hv
                    simp only [hc, Bool.false_eq_true, if_false, hdef, hcache, addAccess_idem]
                next hcache =>
                    rcases resolveOverride_cases _ _ _ _ _ h with
                      ⟨hccache, hcdefs, hcacc⟩ | ⟨hcc, hvn⟩
                    · have hacc2 : addAccess ctx'.accessedPaths (strTail s) =
                          ctx'.accessedPaths := by
                        rw [hcacc, addAccess_idem]
                      have hdefs2 : List.lookup (strTail s) ctx'.definitions =
                          Option.none := by
                        rw [hcdefs]
                        exact hdef
                      simp only [hc, Bool.false_eq_true, if_false, hacc2, hdefs2, hccache]
                    · subst hvn
                      subst hcc
                      simp only [hc, Bool.false_eq_true, if_false, addAccess_idem, hdef, hcache]
                      exact h
      · have hb : strIsRef s = false := by
          simpa using hr
        rw [resolveValue] at h ⊢
        simp only [hb, Bool.false_eq_true, if_false] at h ⊢
        simp only [Except.ok.injEq, Prod.mk.injEq] at h
        obtain ⟨hv, hctx⟩ := h
        subst hctx
        subst hv
        rfl
  | none =>
      have h2 : (Except.ok (Val.none, ctx) : Res (Val × Ctx)) = .ok (v, ctx') := h
      simp only [Except.ok.injEq, Prod.mk.injEq] at h2
      obtain ⟨hv, hctx⟩ := h2
      subst hctx
      subst hv
      rfl
  | bool b =>
      have h2 : (Except.ok (Val.bool b, ctx) : Res (Val × Ctx)) = .ok (v, ctx') := h
      simp only [Except.ok.injEq, Prod.mk.injEq] at h2
      obtain ⟨hv, hctx⟩ := h2
      subst hctx
      subst hv
      rfl
  | int n =>
      have h2 : (Except.ok (Val.int n, ctx) : Res (Val × Ctx)) = .ok (v, ctx') := h
      simp only [Except.ok.injEq, Prod.mk.injEq] at h2
      obtain ⟨hv, hctx⟩ := h2
      subst hctx
      subst hv
      rfl
  | float q =>
      have h2 : (Except.ok (Val.float q, ctx) : Res (Val × Ctx)) = .ok (v, ctx') := h
      simp only [Except.ok.injEq, Prod.mk.injEq] at h2
      obtain ⟨hv, hctx⟩ := h2
      subst hctx
      subst hv
      rfl
  | list vs =>
      have h2 : (Except.ok (Val.list vs, ctx) : Res (Val × Ctx)) = .ok (v, ctx') := h
      simp only [Except.ok.injEq, Prod.mk.injEq] at h2
      obtain ⟨hv, hctx⟩ := h2
      subst hctx
      subst hv
      rfl
  | dict d =>
      have h2 : (Except.ok (Val.dict d, ctx) : Res (Val × Ctx)) = .ok (v, ctx') := h
      simp only [Except.ok.injEq, Prod.mk.injEq] at h2
      obtain ⟨hv, hctx⟩ := h2
      subst hctx
      subst hv
      rfl

/-- A provider returning 99 for every lookup, for concrete runs. -/
def provW : Provider := ⟨fun _ _ _ _ _ _ => .int 99⟩

def specW : PropSpec :=
  { serviceRef := some ⟨"S", "L", "F"⟩,
    sourceRef := some { table := some "t", field := some "f" },
    temporal := some (.str "monthly") }

def ctxC4 : Ctx :=
  { ctxBase with
      propertySpecs := [("x", specW)]
      overwriteInput := [("@S.F", .int 42)]
      sources := some [("t", [("f", .int 7)])]
      provider := some provW }

def ctxC4src : Ctx := { ctxC4 with overwriteInput := [] }

/-- C4 witness: with both an override and a source configured the override
value 42 is returned; with only the source and a live provider the source
value 7 is returned and the serviceCalls log stays empty. -/
theorem c4_resolution_priority_witness :
    resolveValue ctxC4 (.str "$x") = .ok (.int 42,
      { ctxC4 with accessedPaths := ["x"], valuesCache := [("x", .int 42)] }) ∧
    resolveValue ctxC4src (.str "$x") = .ok (.int 7,
      { ctxC4src with accessedPaths := ["x"], valuesCache := [("x", .int 7)] }) := by
  constructor
  · exact (c4_resolution_priority ctxC4 "$x" "x" (by decide) (by decide)).2.2.2.1
      specW ⟨"S", "L", "F"⟩ (.int 42) (by decide) rfl rfl rfl rfl rfl
  · exact (c4_resolution_priority ctxC4src "$x" "x" (by decide) (by decide)).2.2.2.2
      specW { table := some "t", field := some "f" } "t" "f"
      [("t", [("f", .int 7)])] [("f", .int 7)] (.int 7)
      (by decide) rfl rfl rfl (fun _ _ => rfl) rfl rfl rfl rfl rfl rfl

def ctxC8 : Ctx :=
  { ctxBase with propertySpecs := [("x", specW)], provider := some provW }

def ctxC8after : Ctx :=
  { ctxC8 with
      accessedPaths := ["x"]
      valuesCache := [("x", .int 99)]
      serviceCalls := [("S", "L", "F")] }

/-- C8 witness: a path first resolved through the ServiceProvider and then
resolved again returns the cached value and leaves the context - including
the serviceCalls log - unchanged. -/
theorem c8_cache_write_once_witness :
    resolveValue ctxC8after (.str "$x") = .ok (.int 99, ctxC8after) :=
  c8_cache_write_once ctxC8 (.str "$x") (.int 99) ctxC8after rfl

/-! ### C5: requirement short-circuiting -/

/-- Just the boolean outcome of a requirements evaluation. -/
def reqOutcome (r : Res (Bool × List PathNode × Ctx)) : Option Bool :=
  match r with
  | .ok (b, _, _) => some b
  | .error _ => Option.none

theorem evalReqLoop_append (rest : List ReqDict) : ∀ (f : ℕ) (rs : List ReqDict)
    (ctx : Ctx), reqOutcome (evalReqLoop f rs ctx) = some false →
    evalReqLoop f (rs ++ rest) ctx = evalReqLoop f rs ctx := by
  intro f rs
  induction rs generalizing f with
  | nil =>
      intro ctx h
      cases f <;> simp [evalReqLoop, reqOutcome] at h
  | cons r rs' ih =>
      intro ctx h
      cases f with
      | zero => simp [evalReqLoop, reqOutcome] at h
      | succ f =>
          simp only [evalReqLoop] at h ⊢
          cases hstep : evalOneReq f r ctx with
          | error e =>
              rw [hstep] at h
              simp [reqOutcome] at h
          | ok res =>
              obtain ⟨resV, node, ctx1⟩ := res
              simp only [hstep, resBind_ok] at h ⊢
              by_cases ht : truthy resV
              · simp only [ht, if_true] at h ⊢
                cases hrec : evalReqLoop f rs' ctx1 with
                | error e =>
                    rw [hrec] at h
                    simp [reqOutcome] at h
                | ok res2 =>
                    obtain ⟨b2, ns2, ctx2⟩ := res2
                    rw [hrec] at h
                    simp only [resBind_ok, reqOutcome] at h
                    have hb2 : b2 = false := by simpa using h
                    have hih := ih f ctx1 (by rw [hrec]; simp [reqOutcome, hb2])
                    simp only [List.append_eq]
                    rw [hih, hrec]
              · simp only [ht, Bool.false_eq_true, if_false] at h ⊢

/-- C5: requirements are traversed in specification order and the first
falsy requirement makes the whole set fail: evaluating `rs ++ rest` is
literally the same computation as evaluating `rs` alone whenever `rs` already
evaluates to `False` - the same `False` result, the same trace nodes, and the
same final context, so no requirement in `rest` is evaluated and no
ServiceProvider call (recorded in `serviceCalls`) is made on its behalf. -/
theorem c5_requirements_short_circuit (f : ℕ) (rs rest : List ReqDict) (ctx : Ctx)
    (h : reqOutcome (evaluateRequirements f rs ctx) = some false) :
    evaluateRequirements f (rs ++ rest) ctx = evaluateRequirements f rs ctx := by
  cases f with
  | zero => simp [evaluateRequirements, reqOutcome] at h
  | succ f =>
      rw [evaluateRequirements] at h ⊢
      rw [evaluateRequirements]
      cases rs with
      | nil => simp [evalReqLoop, reqOutcome] at h
      | cons r rs' =>
          simp only [List.cons_append, List.isEmpty_cons, Bool.false_eq_true,
            if_false] at h ⊢
          exact evalReqLoop_append rest f (r :: rs') ctx h

/-- A requirement that evaluates falsy: `EQUALS` with subject 1 and value 2. -/
def reqFalseW : ReqDict :=
  .op (.mk (some "EQUALS") (some (.int 2)) (some (.int 1)) Option.none [] Option.none)

/-- A requirement whose evaluation would call the ServiceProvider. -/
def reqServiceW : ReqDict :=
  .op (.mk (some "NOT_NULL") Option.none (some (.str "$x")) Option.none [] Option.none)

/-- C5 witness: with a provider configured, appending a service-calling
requirement after a falsy one changes nothing about the evaluation. -/
theorem c5_requirements_short_circuit_witness :
    evaluateRequirements 9 ([reqFalseW] ++ [reqServiceW]) ctxC8 =
      evaluateRequirements 9 [reqFalseW] ctxC8 :=
  c5_requirements_short_circuit 9 [reqFalseW] [reqServiceW] ctxC8 rfl

/-! ### C2: unresolved references -/

def isNoneV : Val → Bool
  | .none => true
  | _ => false

/-- The engine whose single requirement orders `None` against 5. -/
def engC2gt : RulesEngine := RulesEngine.make
  { requirements := [.op (.mk (some "GREATER_THAN") (some (.int 5))
      (some (.str "$missing")) Option.none [] Option.none)] } Option.none

/-- The engine whose single requirement equality-compares `None` with 5. -/
def engC2eq : RulesEngine := RulesEngine.make
  { requirements := [.op (.mk (some "EQUALS") (some (.int 5))
      (some (.str "$missing")) Option.none [] Option.none)] } Option.none

/-- C2 counterexample: the claim says an unresolved null "propagates as null
through downstream operations (comparisons, arithmetic, ...) and is not
fatal".  In Python 3 an ordering comparison or an addition involving `None`
raises TypeError: the whole `evaluate` aborts with the error instead of
returning a result object, and `ADD` over a null aborts likewise. -/
theorem c2_null_comparison_counterexample :
    engC2gt.evaluate 9 [] [] Option.none Option.none Option.none =
      .error (.typeError "unorderable types") ∧
    evalArithmetic 9 "ADD" [.none, .int 5] =
      .error (.typeError "unsupported operand types for +") := by
  constructor <;> rfl

/-- C2 (amended): a reference path for which nothing applies resolves to
null; the null propagates as null/falsy through equality comparisons,
membership and truthiness, which never raise, and such an evaluation
completes normally; but ordering comparisons (and arithmetic) on the null
raise a TypeError that aborts `evaluate`. -/
theorem c2_null_resolution_amended :
    (∀ (ctx : Ctx) (s p : String), strIsRef s = true → strTail s = p →
      p ≠ "calculation_date" → ctx.definitions.lookup p = Option.none →
      ctx.valuesCache.lookup p = Option.none →
      ctx.propertySpecs.lookup p = Option.none →
      resolveValue ctx (.str s) =
        .ok (.none, { ctx with accessedPaths := addAccess ctx.accessedPaths p })) ∧
    (∀ (f : ℕ) (v : Val), pyEq (f + 1) .none v = .ok (isNoneV v)) ∧
    (∀ (f : ℕ) (v : Val), pyLt (f + 1) .none v = .error (.typeError "unorderable types")) ∧
    (∀ (f : ℕ) (ys : List Val), pyIn (f + 1) .none ys = .ok (ys.any isNoneV)) ∧
    (engC2eq.evaluate 9 [] [] Option.none Option.none Option.none).map
      (fun r => r.requirementsMet) = .ok false := by
  refine ⟨?_, ?_, ?_, ?_, rfl⟩
  · intro ctx s p hs hp hcal hdef hcache hspec
    have hcb : (p == "calculation_date") = false := by simpa using hcal
    rw [resolveValue]
    simp only [hs, if_true, hp, hcb, Bool.false_eq_true, if_false, hdef, hcache, hspec]
    rfl
  · intro f v
    cases v <;> rfl
  · intro f v
    cases v <;> rfl
  · intro f ys
    induction ys with
    | nil => rfl
    | cons y ys ih =>
        have hy : pyEq (f + 1) .none y = .ok (isNoneV y) := by cases y <;> rfl
        simp only [pyIn, hy, resBind_ok, List.any_cons]
        cases hyn : isNoneV y
        · simpa [hyn] using ih
        · simp [hyn]

/-- C2 witness: at a bare context the unresolvable path `$missing` yields
null. -/
theorem c2_null_resolution_amended_witness :
    resolveValue ctxBase (.str "$missing") =
      .ok (.none, { ctxBase with accessedPaths := addAccess ctxBase.accessedPaths "missing" }) :=
  c2_null_resolution_amended.1 ctxBase "$missing" "missing" (by decide) (by decide)
    (by decide) rfl rfl rfl

/-! ### C9: output filtering -/

/-- The action-skip test of the loop in `evaluate`, stated positively: an
action named `name` is evaluated when no filter was given, when the filter is
the empty string (a falsy filter disables filtering), or when it equals
`name`. -/
def matchesFilterB : Option String → String → Bool
  | some flt, name => flt.data.isEmpty || flt == name
  | Option.none, _ => true

theorem actionsLoop_cons (f : ℕ) (eng : RulesEngine) (a : ActionDict)
    (rest : List ActionDict) (ro : Option String) (acc : List (String × OutputDef))
    (ctx : Ctx) :
    actionsLoop f eng (a :: rest) ro acc ctx =
      if matchesFilterB ro a.output then
        (do
          let (odef, name, node, ctx1) ← evaluateAction f eng a ctx
          let (acc2, ns, ctx2) ← actionsLoop f eng rest ro (dictSet acc name odef) ctx1
          (.ok (acc2, node :: ns, ctx2) :
            Res (List (String × OutputDef) × List PathNode × Ctx)))
      else actionsLoop f eng rest ro acc ctx := by
  cases ro with
  | none => simp [actionsLoop, matchesFilterB]
  | some flt =>
      simp only [actionsLoop, matchesFilterB]
      cases hE : flt.data.isEmpty <;> cases hB : flt == a.output <;>
        simp [hE, hB, bne]

theorem dictSet_lookup_isSome {α : Type} (m : List (String × α)) (k : String) (v : α)
    (x : String) :
    ((dictSet m k v).lookup x).isSome = ((x == k) || (m.lookup x).isSome) := by
  induction m with
  | nil => cases h : x == k <;> simp [dictSet, List.lookup, h]
  | cons kv rest ih =>
      obtain ⟨a, b⟩ := kv
      simp only [dictSet]
      by_cases hak : (a == k) = true
      · have hk : a = k := by simpa using hak
        subst hk
        simp only [hak, if_true, List.lookup]
        cases h : x == a <;> simp [h]
      · have hak' : (a == k) = false := by simpa using hak
        simp only [hak', Bool.false_eq_true, if_false, List.lookup]
        cases h : x == a
        · simp [h, ih]
        · have : x = a := by simpa using h
          subst this
          simp [h, hak']

theorem dictSet_keys {α : Type} (X : String) :
    ∀ (m : List (String × α)) (v : α), (∀ kv ∈ m, kv.1 = X) →
      ∀ kv ∈ dictSet m X v, kv.1 = X := by
  intro m
  induction m with
  | nil =>
      intro v _ kv hkv
      simp only [dictSet, List.mem_singleton] at hkv
      subst hkv
      rfl
  | cons ab rest ih =>
      obtain ⟨a, b⟩ := ab
      intro v hm kv hkv
      simp only [dictSet] at hkv
      by_cases hak : (a == X) = true
      · rw [if_pos hak] at hkv
        rcases List.mem_cons.mp hkv with h1 | h2
        · subst h1; rfl
        · exact hm kv (List.mem_cons_of_mem _ h2)
      · rw [if_neg hak] at hkv
        rcases List.mem_cons.mp hkv with h1 | h2
        · subst h1
          exact hm (a, b) (List.mem_cons_self _ _)
        · exact ih v (fun kv hkv => hm kv (List.mem_cons_of_mem _ hkv)) kv h2

/-- Every successful `_evaluate_action` reports the action's own `output`
name as the key under which its result is stored. -/
theorem evaluateAction_name (f : ℕ) (eng : RulesEngine) (a : ActionDict) (ctx : Ctx)
    (odef : OutputDef) (nm : String) (node : PathNode) (ctx1 : Ctx)
    (h : evaluateAction f eng a ctx = .ok (odef, nm, node, ctx1)) : nm = a.output := by
  simp only [evaluateAction, bind, Except.bind] at h
  repeat' split at h
  any_goals (simp at h; done)
  all_goals
    simp only [Except.ok.injEq, Prod.mk.injEq] at h
    exact h.2.1.symm

/-- The action loop stores an output under `name` exactly when it was
already stored or some remaining action is named `name` and passes the
filter test. -/
theorem actionsLoop_lookup (f : ℕ) (eng : RulesEngine) (as : List ActionDict)
    (ro : Option String) :
    ∀ (acc : List (String × OutputDef)) (ctx : Ctx) (out : List (String × OutputDef))
      (ns : List PathNode) (ctx' : Ctx),
      actionsLoop f eng as ro acc ctx = .ok (out, ns, ctx') →
      ∀ name : String, (out.lookup name).isSome =
        ((acc.lookup name).isSome ||
          ((as.map ActionDict.output).contains name && matchesFilterB ro name)) := by
  induction as with
  | nil =>
      intro acc ctx out ns ctx' h name
      simp only [actionsLoop, Except.ok.injEq, Prod.mk.injEq] at h
      obtain ⟨rfl, -, -⟩ := h
      simp
  | cons a rest ih =>
      intro acc ctx out ns ctx' h name
      rw [actionsLoop_cons] at h
      by_cases hm : matchesFilterB ro a.output = true
      · rw [if_pos hm] at h
        cases hx : evaluateAction f eng a ctx with
        | error e => rw [hx] at h; simp at h
        | ok t =>
            obtain ⟨odef, nm, node, ctx1⟩ := t
            rw [hx] at h
            simp only [resBind_ok] at h
            cases hy : actionsLoop f eng rest ro (dictSet acc nm odef) ctx1 with
            | error e => rw [hy] at h; simp at h
            | ok u =>
                obtain ⟨acc2, ns2, ctx2⟩ := u
                rw [hy] at h
                simp only [resBind_ok, Except.ok.injEq, Prod.mk.injEq] at h
                obtain ⟨rfl, -, -⟩ := h
                have hnm := evaluateAction_name f eng a ctx odef nm node ctx1 hx
                subst hnm
                have hrec := ih (dictSet acc a.output odef) ctx1 acc2 ns2 ctx2 hy name
                rw [hrec, dictSet_lookup_isSome]
                simp only [List.map_cons, List.contains_cons]
                by_cases hn : (name == a.output) = true
                · have he : name = a.output := by simpa using hn
                  subst he
                  simp [hm]
                · have hn' : (name == a.output) = false := by simpa using hn
                  simp [hn']
      · rw [if_neg hm] at h
        have hrec := ih acc ctx out ns ctx' h name
        rw [hrec]
        simp only [List.map_cons, List.contains_cons]
        by_cases hn : (name == a.output) = true
        · have he : name = a.output := by simpa using hn
          subst he
          have hm2 : matchesFilterB ro a.output = false := by simpa using hm
          simp [hm2]
        · have hn' : (name == a.output) = false := by simpa using hn
          simp [hn']

/-- With a non-empty string filter, every key the action loop adds equals
the filter. -/
theorem actionsLoop_keys (f : ℕ) (eng : RulesEngine) (as : List ActionDict)
    (X : String) (hX : X ≠ "") :
    ∀ (acc : List (String × OutputDef)) (ctx : Ctx) (out : List (String × OutputDef))
      (ns : List PathNode) (ctx' : Ctx),
      actionsLoop f eng as (some X) acc ctx = .ok (out, ns, ctx') →
      (∀ kv ∈ acc, kv.1 = X) → ∀ kv ∈ out, kv.1 = X := by
  induction as with
  | nil =>
      intro acc ctx out ns ctx' h hacc
      simp only [actionsLoop, Except.ok.injEq, Prod.mk.injEq] at h
      obtain ⟨rfl, -, -⟩ := h
      exact hacc
  | cons a rest ih =>
      intro acc ctx out ns ctx' h hacc
      rw [actionsLoop_cons] at h
      by_cases hm : matchesFilterB (some X) a.output = true
      · rw [if_pos hm] at h
        cases hx : evaluateAction f eng a ctx with
        | error e => rw [hx] at h; simp at h
        | ok t =>
            obtain ⟨odef, nm, node, ctx1⟩ := t
            rw [hx] at h
            simp only [resBind_ok] at h
            cases hy : actionsLoop f eng rest (some X) (dictSet acc nm odef) ctx1 with
            | error e => rw [hy] at h; simp at h
            | ok u =>
                obtain ⟨acc2, ns2, ctx2⟩ := u
                rw [hy] at h
                simp only [resBind_ok, Except.ok.injEq, Prod.mk.injEq] at h
                obtain ⟨rfl, -, -⟩ := h
                have hnm := evaluateAction_name f eng a ctx odef nm node ctx1 hx
                subst hnm
                have hEm : X.data.isEmpty = false := by
                  cases X with
                  | mk d =>
                      cases d with
                      | nil => exact absurd rfl hX
                      | cons c cs => rfl
                have hXa : X = a.output := by
                  simp only [matchesFilterB, hEm, Bool.false_or] at hm
                  simpa using hm
                refine ih (dictSet acc a.output odef) ctx1 acc2 ns2 ctx2 hy ?_
                rw [← hXa]
                exact dictSet_keys X acc odef hacc
      · rw [if_neg hm] at h
        exact ih acc ctx out ns ctx' h hacc

/-- A no-requirement engine with two actions, outputs `"a"` and `"b"`. -/
def engC9 : RulesEngine := RulesEngine.make
  { actions := [⟨"a", .mk Option.none (some (.int 1)) Option.none Option.none [] Option.none⟩,
                ⟨"b", .mk Option.none (some (.int 2)) Option.none Option.none [] Option.none⟩] }
  Option.none

/-- C9 counterexample: with `requested_output = ""` the skip test
`requested_output and requested_output != output_name` is falsy, so no
filtering happens at all: both actions run and the output map has two
entries, `"a"` and `"b"`, although a filter was given and equals neither
key.  This refutes both the claimed iff (the filter equals no stored name)
and the at-most-one-entry-keyed-by-the-filter consequence. -/
theorem c9_output_filtering_counterexample :
    (engC9.evaluate 9 [] [] Option.none Option.none (some "")).map
        (fun r => (r.requirementsMet, r.output.map Prod.fst)) = .ok (true, ["a", "b"]) ∧
    ("" : String) ≠ "a" ∧ ("" : String) ≠ "b" :=
  ⟨rfl, by decide, by decide⟩

/-- C9 (amended): in a successful `evaluate`, an output entry exists under
`name` exactly when requirements were met, some action outputs `name`, and
the filter test passes - where a missing filter and the empty-string filter
admit every name, and a non-empty filter admits only itself.  Consequently
with a non-empty filter `X` every stored key equals `X` (at most one entry,
keyed `X`); the empty-string filter disables filtering instead. -/
theorem c9_output_filtering_amended (f : ℕ) (eng : RulesEngine)
    (sc oi : List (String × Val)) (src : Option (List (String × List (String × Val))))
    (cd ro : Option String) (res : EvalResult)
    (h : eng.evaluate f sc oi src cd ro = .ok res) :
    (∀ name : String, (res.output.lookup name).isSome =
      (res.requirementsMet && ((eng.actions.map ActionDict.output).contains name &&
        matchesFilterB ro name))) ∧
    (∀ X : String, ro = some X → X ≠ "" → ∀ kv ∈ res.output, kv.1 = X) := by
  simp only [RulesEngine.evaluate, bind, Except.bind] at h
  split at h
  · exact absurd h (by simp)
  next t heq =>
    obtain ⟨reqMet, reqCh, ctx1⟩ := t
    by_cases hr : reqMet = true
    · rw [if_pos hr] at h
      split at h
      · exact absurd h (by simp)
      next u heq2 =>
        obtain ⟨out0, ns0, ctx2⟩ := u
        simp only [Except.ok.injEq] at h
        subst h
        constructor
        · intro name
          have hl := actionsLoop_lookup f eng eng.actions ro [] ctx1 out0 ns0 ctx2 heq2 name
          simpa [hr] using hl
        · intro X hro hX kv hkv
          subst hro
          exact actionsLoop_keys f eng eng.actions X hX [] ctx1 out0 ns0 ctx2 heq2
            (by intro kv hkv; simp at hkv) kv hkv
    · rw [if_neg hr] at h
      simp only [Except.ok.injEq] at h
      subst h
      have hr' : reqMet = false := by simpa using hr
      constructor
      · intro name
        simp [hr']
      · intro X hro hX kv hkv
        simp at hkv

/-- The result of evaluating `engC9` with the filter `"b"`. -/
def resC9b : EvalResult :=
  match engC9.evaluate 9 [] [] Option.none Option.none (some "b") with
  | .ok r => r
  | .error _ =>
      { input := []
        output := []
        requirementsMet := false
        path := PathNode.mk "" "" .none [] [] }

/-- C9 witness: the amended theorem applied to `engC9` filtered on `"b"`,
instantiated at the name `"a"` (which is filtered out). -/
theorem c9_output_filtering_amended_witness :
    (resC9b.output.lookup "a").isSome =
      (resC9b.requirementsMet && ((engC9.actions.map ActionDict.output).contains "a" &&
        matchesFilterB (some "b") "a")) :=
  (c9_output_filtering_amended 9 engC9 [] [] Option.none Option.none (some "b")
    resC9b rfl).1 "a"

/-! ### C6: the enforcement pipeline, stated as the spec words it -/

/-- Spec wording: "clamping up to min (when set)". -/
def clampMinS : Option NumV → PyNum → PyNum
  | some m, x => if x.rat < m.rat then m.toPyNum else x
  | Option.none, x => x

/-- Spec wording: "clamping down to max (when set)". -/
def clampMaxS : Option NumV → PyNum → PyNum
  | some m, x => if m.rat < x.rat then m.toPyNum else x
  | Option.none, x => x

/-- Spec wording: "rounding half-to-even to the given decimal precision
(when set)". -/
def roundPrecS : Option ℤ → PyNum → PyNum
  | some p, x => pyRound x p
  | Option.none, x => x

/-- Spec wording: "when unit is eurocent - truncation toward zero to an
integer". -/
def unitCoerceS (u : Option String) (x : PyNum) : Val :=
  if u = some "eurocent" then .int x.toIntZ else x.toVal

/-- `TypeSpec.enforce` as the claim describes it: null passes through,
strings parse as floats (unchanged on failure), non-numerics pass through,
and numerics go through min clamp, max clamp, precision rounding and
eurocent coercion, composed in that order. -/
def enforceSpecModel (t : TypeSpec) (v : Val) : Val :=
  match v with
  | .none => .none
  | .str s =>
      match parseFloat s with
      | some q =>
          unitCoerceS t.unit (roundPrecS t.precision
            (clampMaxS t.max (clampMinS t.min (.pfloat q))))
      | Option.none => .str s
  | .bool b =>
      unitCoerceS t.unit (roundPrecS t.precision
        (clampMaxS t.max (clampMinS t.min (.pbool b))))
  | .int n =>
      unitCoerceS t.unit (roundPrecS t.precision
        (clampMaxS t.max (clampMinS t.min (.pint n))))
  | .float q =>
      unitCoerceS t.unit (roundPrecS t.precision
        (clampMaxS t.max (clampMinS t.min (.pfloat q))))
  | .list vs => .list vs
  | .dict d => .dict d

/-- C6: `TypeSpec.enforce` coincides with the claim's pipeline on every
value, and the order is observable: bounds apply before precision
(max 3.5 then round(·,0) turns 10 into 4.0, not 3.5), precision applies
before the eurocent coercion (round(3.5,0) = 4.0 then int gives 4, not 3),
a non-parsing string survives even when clamps are set, and a parsing
string takes the numeric path. -/
theorem c6_enforce_pipeline :
    (∀ (t : TypeSpec) (v : Val), t.enforce v = enforceSpecModel t v) ∧
    ({ max := some (.float (mkRat 7 2)), precision := some 0 } : TypeSpec).enforce
        (.float 10) = .float 4 ∧
    ({ precision := some 0, unit := some "eurocent" } : TypeSpec).enforce
        (.float (mkRat 7 2)) = .int 4 ∧
    ({ min := some (.int 5) } : TypeSpec).enforce (.str "abc") = .str "abc" ∧
    ({} : TypeSpec).enforce (.str " 2.5e1 ") = .float 25 := by
  refine ⟨?_, rfl, rfl, rfl, rfl⟩
  intro t v
  obtain ⟨u, p, mn, mx⟩ := t
  cases v with
  | str s =>
      simp only [TypeSpec.enforce, enforceSpecModel]
      cases hpf : parseFloat s with
      | none => simp [hpf]
      | some q =>
          simp only [hpf]
          cases mn <;> cases mx <;> cases p <;> rfl
  | bool b => cases mn <;> cases mx <;> cases p <;> rfl
  | int n => cases mn <;> cases mx <;> cases p <;> rfl
  | float q => cases mn <;> cases mx <;> cases p <;> rfl
  | none => rfl
  | list vs => rfl
  | dict d => rfl

/-! ### C7: idempotence of enforcement -/

theorem halfEvenZ_bounds (q : ℚ) : ⌊q⌋ ≤ halfEvenZ q ∧ halfEvenZ q ≤ ⌊q⌋ + 1 := by
  rw [halfEvenZ_eq]
  split_ifs <;> omega

theorem halfEvenZ_mono {q r : ℚ} (h : q ≤ r) : halfEvenZ q ≤ halfEvenZ r := by
  have hf : ⌊q⌋ ≤ ⌊r⌋ := Int.floor_mono h
  rcases lt_or_eq_of_le hf with hlt | heq
  · have h1 := (halfEvenZ_bounds q).2
    have h2 := (halfEvenZ_bounds r).1
    omega
  · rw [halfEvenZ_eq, halfEvenZ_eq, ← heq]
    have hq1 : (⌊q⌋ : ℚ) ≤ q := Int.floor_le q
    split_ifs <;> first | omega | linarith

theorem halfEvenZ_intCast (n : ℤ) : halfEvenZ (n : ℚ) = n := by
  rw [halfEvenZ_eq, Int.floor_intCast, sub_self]
  norm_num

theorem roundRat_mono (p : ℤ) {q r : ℚ} (h : q ≤ r) : roundRat q p ≤ roundRat r p := by
  rw [roundRat_eq, roundRat_eq]
  have h10 : (0 : ℚ) < 10 ^ p := by positivity
  have hm : halfEvenZ (q * 10 ^ p) ≤ halfEvenZ (r * 10 ^ p) :=
    halfEvenZ_mono (mul_le_mul_of_nonneg_right h (le_of_lt h10))
  exact (div_le_div_iff_of_pos_right h10).mpr (by exact_mod_cast hm)

theorem roundRat_idem (q : ℚ) (p : ℤ) : roundRat (roundRat q p) p = roundRat q p := by
  have h10 : ((10 : ℚ) ^ p) ≠ 0 := by positivity
  rw [roundRat_eq, roundRat_eq, div_mul_cancel₀ _ h10, halfEvenZ_intCast]

theorem roundRat_intCast (n : ℤ) (p : ℤ) (hp : 0 ≤ p) : roundRat (n : ℚ) p = n := by
  rw [roundRat_eq]
  have hcast : ((n : ℚ) * 10 ^ p) = ((n * 10 ^ p.toNat : ℤ) : ℚ) := by
    push_cast
    rw [← zpow_natCast (10 : ℚ) p.toNat, Int.toNat_of_nonneg hp]
  rw [hcast, halfEvenZ_intCast]
  push_cast
  rw [← zpow_natCast (10 : ℚ) p.toNat, Int.toNat_of_nonneg hp,
    mul_div_assoc, div_self (by positivity), mul_one]

theorem toPyNum_rat (b : NumV) : b.toPyNum.rat = b.rat := by
  cases b <;> rfl

theorem intRoundPy_rat (n p : ℤ) :
    ratOfInt (pyRound.intRoundPy n p) = roundRat (ratOfInt n) p := by
  rw [pyRound.intRoundPy]
  split_ifs with h
  · rw [ratOfInt_eq, roundRat_intCast n p h]
  · rw [ratMul_eq, pow10_eq, ratOfInt_eq n, ratOfInt_eq, roundRat_eq]
    push_cast
    rw [← zpow_natCast (10 : ℚ) (-p).toNat, Int.toNat_of_nonneg (by omega : (0:ℤ) ≤ -p),
      zpow_neg, div_eq_mul_inv]

theorem pyRound_rat (x : PyNum) (p : ℤ) : (pyRound x p).rat = roundRat x.rat p := by
  cases x with
  | pbool b =>
      cases b
      · show ratOfInt (pyRound.intRoundPy 0 p) = roundRat (PyNum.rat (.pbool false)) p
        rw [intRoundPy_rat]
        congr 1
      · show ratOfInt (pyRound.intRoundPy 1 p) = roundRat (PyNum.rat (.pbool true)) p
        rw [intRoundPy_rat]
        congr 1
  | pint n => simp only [pyRound, PyNum.rat, intRoundPy_rat]
  | pfloat q => rfl

theorem intRoundPy_idem (n p : ℤ) :
    pyRound.intRoundPy (pyRound.intRoundPy n p) p = pyRound.intRoundPy n p := by
  have h := intRoundPy_rat (pyRound.intRoundPy n p) p
  rw [intRoundPy_rat n p, roundRat_idem, ← intRoundPy_rat n p,
    ratOfInt_eq, ratOfInt_eq] at h
  exact_mod_cast h

theorem pyRound_idem (x : PyNum) (p : ℤ) : pyRound (pyRound x p) p = pyRound x p := by
  cases x with
  | pbool b => simp only [pyRound]; rw [intRoundPy_idem]
  | pint n => simp only [pyRound]; rw [intRoundPy_idem]
  | pfloat q => simp only [pyRound]; rw [roundRat_idem]

theorem pyRound_pint {p : ℤ} (hp : 0 ≤ p) (n : ℤ) : pyRound (.pint n) p = .pint n := by
  simp [pyRound, pyRound.intRoundPy, hp]

/-- Sandwich: when a bound `b` sits between a rounded value and its
pre-rounding original (from below), rounding the bound reproduces the
rounded value. -/
theorem pyRound_sandwich_up (p : ℤ) (hp : 0 ≤ p) (z : PyNum) (b : NumV)
    (hbz : b.rat ≤ z.rat) (hwb : (pyRound z p).rat < b.rat) :
    pyRound b.toPyNum p = pyRound z p := by
  have hwr : (pyRound z p).rat = roundRat z.rat p := pyRound_rat z p
  cases b with
  | int n =>
      exfalso
      have hbq : NumV.rat (.int n) = ((n : ℤ) : ℚ) := by
        simp [NumV.rat, ratOfInt_eq]
      rw [hbq] at hbz hwb
      have h1 : roundRat ((n : ℤ) : ℚ) p ≤ roundRat z.rat p := roundRat_mono p hbz
      rw [roundRat_intCast n p hp] at h1
      rw [hwr] at hwb
      linarith
  | float qb =>
      have hbz' : qb ≤ z.rat := hbz
      have hwb' : (pyRound z p).rat < qb := hwb
      cases z with
      | pint m =>
          exfalso
          rw [pyRound_pint hp] at hwb'
          exact absurd hbz' (not_le.mpr hwb')
      | pbool c =>
          exfalso
          have hcr : (pyRound (.pbool c) p).rat = (PyNum.pbool c).rat := by
            cases c <;> simp [pyRound, pyRound.intRoundPy, hp, PyNum.rat, ratOfInt_eq]
          rw [hcr] at hwb'
          exact absurd hbz' (not_le.mpr hwb')
      | pfloat q =>
          show PyNum.pfloat (roundRat qb p) = PyNum.pfloat (roundRat q p)
          congr 1
          have hwb2 : roundRat q p < qb := by rw [hwr] at hwb'; exact hwb'
          have h1 : roundRat q p ≤ roundRat qb p := by
            have h2 := roundRat_mono p (le_of_lt hwb2)
            rwa [roundRat_idem] at h2
          have h2 : roundRat qb p ≤ roundRat q p := roundRat_mono p hbz'
          linarith

/-- Sandwich from above. -/
theorem pyRound_sandwich_down (p : ℤ) (hp : 0 ≤ p) (z : PyNum) (b : NumV)
    (hzb : z.rat ≤ b.rat) (hbw : b.rat < (pyRound z p).rat) :
    pyRound b.toPyNum p = pyRound z p := by
  have hwr : (pyRound z p).rat = roundRat z.rat p := pyRound_rat z p
  cases b with
  | int n =>
      exfalso
      have hbq : NumV.rat (.int n) = ((n : ℤ) : ℚ) := by
        simp [NumV.rat, ratOfInt_eq]
      rw [hbq] at hzb hbw
      have h1 : roundRat z.rat p ≤ roundRat ((n : ℤ) : ℚ) p := roundRat_mono p hzb
      rw [roundRat_intCast n p hp] at h1
      rw [hwr] at hbw
      linarith
  | float qb =>
      have hzb' : z.rat ≤ qb := hzb
      have hbw' : qb < (pyRound z p).rat := hbw
      cases z with
      | pint m =>
          exfalso
          rw [pyRound_pint hp] at hbw'
          exact absurd hzb' (not_le.mpr hbw')
      | pbool c =>
          exfalso
          have hcr : (pyRound (.pbool c) p).rat = (PyNum.pbool c).rat := by
            cases c <;> simp [pyRound, pyRound.intRoundPy, hp, PyNum.rat, ratOfInt_eq]
          rw [hcr] at hbw'
          exact absurd hzb' (not_le.mpr hbw')
      | pfloat q =>
          show PyNum.pfloat (roundRat qb p) = PyNum.pfloat (roundRat q p)
          congr 1
          have hbw2 : qb < roundRat q p := by rw [hwr] at hbw'; exact hbw'
          have h1 : roundRat qb p ≤ roundRat q p := by
            have h2 := roundRat_mono p (le_of_lt hbw2)
            rwa [roundRat_idem] at h2
          have h2 : roundRat q p ≤ roundRat qb p := roundRat_mono p hzb'
          linarith

theorem clampMinS_lt {m : NumV} {x : PyNum} (h : x.rat < m.rat) :
    clampMinS (some m) x = m.toPyNum := by
  simp [clampMinS, h]

theorem clampMinS_ge {m : NumV} {x : PyNum} (h : ¬ x.rat < m.rat) :
    clampMinS (some m) x = x := by
  simp [clampMinS, h]

theorem clampMaxS_lt {M : NumV} {x : PyNum} (h : M.rat < x.rat) :
    clampMaxS (some M) x = M.toPyNum := by
  simp [clampMaxS, h]

theorem clampMaxS_ge {M : NumV} {x : PyNum} (h : ¬ M.rat < x.rat) :
    clampMaxS (some M) x = x := by
  simp [clampMaxS, h]

theorem clampMinS_rat_ge (m : NumV) (x : PyNum) :
    m.rat ≤ (clampMinS (some m) x).rat := by
  by_cases h : x.rat < m.rat
  · rw [clampMinS_lt h, toPyNum_rat]
  · rw [clampMinS_ge h]
    exact le_of_not_lt h

theorem clampMaxS_rat_le (M : NumV) (x : PyNum) :
    (clampMaxS (some M) x).rat ≤ M.rat := by
  by_cases h : M.rat < x.rat
  · rw [clampMaxS_lt h, toPyNum_rat]
  · rw [clampMaxS_ge h]
    exact le_of_not_lt h

theorem clampMaxS_lower {c : ℚ} (mxo : Option NumV) (x : PyNum)
    (hcx : c ≤ x.rat) (hcM : ∀ M, mxo = some M → c ≤ M.rat) :
    c ≤ (clampMaxS mxo x).rat := by
  cases mxo with
  | none => exact hcx
  | some M =>
      by_cases h : M.rat < x.rat
      · rw [clampMaxS_lt h, toPyNum_rat]
        exact hcM M rfl
      · rw [clampMaxS_ge h]
        exact hcx

/-- A value satisfying the clamping invariants is a fixed point of the
clamp stage. -/
theorem clamp_fix (mno mxo : Option NumV) (z : PyNum)
    (hmin : ∀ m, mno = some m → (∀ M, mxo = some M → m.rat ≤ M.rat) → m.rat ≤ z.rat)
    (hmax : ∀ M, mxo = some M → z.rat ≤ M.rat)
    (hcross : ∀ m M, mno = some m → mxo = some M → M.rat < m.rat → z = M.toPyNum) :
    clampMaxS mxo (clampMinS mno z) = z := by
  cases mno with
  | none =>
      simp only [clampMinS]
      cases mxo with
      | none => rfl
      | some M => exact clampMaxS_ge (not_lt.mpr (hmax M rfl))
  | some m =>
      cases mxo with
      | none =>
          simp only [clampMaxS]
          exact clampMinS_ge (not_lt.mpr (hmin m rfl (by intro M hM; cases hM)))
      | some M =>
          by_cases hMm : M.rat < m.rat
          · have hz : z = M.toPyNum := hcross m M rfl rfl hMm
            subst hz
            rw [clampMinS_lt (by rw [toPyNum_rat]; exact hMm),
              clampMaxS_lt (by rw [toPyNum_rat]; exact hMm)]
          · have hmz : m.rat ≤ z.rat :=
              hmin m rfl (by intro M' hM'; cases hM'; exact le_of_not_lt hMm)
            rw [clampMinS_ge (not_lt.mpr hmz)]
            exact clampMaxS_ge (not_lt.mpr (hmax M rfl))

/-- A rounded value satisfying the clamping invariants before rounding is,
after re-clamping, rounded back to itself (non-negative precision). -/
theorem clamp_round_fix (mno mxo : Option NumV) (p : ℤ) (hp : 0 ≤ p) (z : PyNum)
    (hmin : ∀ m, mno = some m → (∀ M, mxo = some M → m.rat ≤ M.rat) → m.rat ≤ z.rat)
    (hmax : ∀ M, mxo = some M → z.rat ≤ M.rat)
    (hcross : ∀ m M, mno = some m → mxo = some M → M.rat < m.rat → z = M.toPyNum) :
    pyRound (clampMaxS mxo (clampMinS mno (pyRound z p))) p = pyRound z p := by
  cases mno with
  | none =>
      simp only [clampMinS]
      cases mxo with
      | none => exact pyRound_idem z p
      | some M =>
          by_cases hMw : M.rat < (pyRound z p).rat
          · rw [clampMaxS_lt hMw]
            exact pyRound_sandwich_down p hp z M (hmax M rfl) hMw
          · rw [clampMaxS_ge hMw]
            exact pyRound_idem z p
  | some m =>
      cases mxo with
      | none =>
          have hmz : m.rat ≤ z.rat := hmin m rfl (by intro M hM; cases hM)
          simp only [clampMaxS]
          by_cases hmw : (pyRound z p).rat < m.rat
          · rw [clampMinS_lt hmw]
            exact pyRound_sandwich_up p hp z m hmz hmw
          · rw [clampMinS_ge hmw]
            exact pyRound_idem z p
      | some M =>
          by_cases hMm : M.rat < m.rat
          · have hz : z = M.toPyNum := hcross m M rfl rfl hMm
            by_cases hmw : (pyRound z p).rat < m.rat
            · rw [clampMinS_lt hmw,
                clampMaxS_lt (by rw [toPyNum_rat]; exact hMm), hz]
            · rw [clampMinS_ge hmw]
              by_cases hMw : M.rat < (pyRound z p).rat
              · rw [clampMaxS_lt hMw, hz]
              · rw [clampMaxS_ge hMw]
                exact pyRound_idem z p
          · have hmM : m.rat ≤ M.rat := le_of_not_lt hMm
            have hmz : m.rat ≤ z.rat :=
              hmin m rfl (by intro M' hM'; cases hM'; exact hmM)
            by_cases hmw : (pyRound z p).rat < m.rat
            · rw [clampMinS_lt hmw,
                clampMaxS_ge (by rw [toPyNum_rat]; exact not_lt.mpr hmM)]
              exact pyRound_sandwich_up p hp z m hmz hmw
            · rw [clampMinS_ge hmw]
              by_cases hMw : M.rat < (pyRound z p).rat
              · rw [clampMaxS_lt hMw]
                exact pyRound_sandwich_down p hp z M (hmax M rfl) hMw
              · rw [clampMaxS_ge hMw]
                exact pyRound_idem z p

theorem truncZ_intCast (n : ℤ) : truncZ ((n : ℤ) : ℚ) = n := by
  rw [truncZ_eq]
  split_ifs with h
  · rw [Int.ceil_intCast]
  · rw [Int.floor_intCast]

theorem toIntZ_eq (x : PyNum) : x.toIntZ = truncZ x.rat := by
  cases x with
  | pbool b => cases b <;> decide
  | pint n =>
      show n = truncZ (ratOfInt n)
      rw [ratOfInt_eq, truncZ_intCast]
  | pfloat q => rfl

theorem truncZ_bounds_nonneg {q : ℚ} (h : 0 ≤ q) :
    (truncZ q : ℚ) ≤ q ∧ q < truncZ q + 1 := by
  rw [truncZ_eq, if_neg (not_lt.mpr h)]
  refine ⟨Int.floor_le q, ?_⟩
  have := Int.lt_floor_add_one q
  push_cast at this ⊢
  linarith

theorem truncZ_bounds_nonpos {q : ℚ} (h : q ≤ 0) :
    q ≤ truncZ q ∧ (truncZ q : ℚ) - 1 < q := by
  rw [truncZ_eq]
  split_ifs with h0
  · refine ⟨Int.le_ceil q, ?_⟩
    have := Int.ceil_lt_add_one q
    push_cast at this ⊢
    linarith
  · have hq0 : q = 0 := le_antisymm h (not_lt.mp h0)
    subst hq0
    norm_num

theorem truncZ_eq_of_nonneg_bounds {q : ℚ} {k : ℤ} (hk : 0 ≤ k)
    (h1 : (k : ℚ) ≤ q) (h2 : q < k + 1) : truncZ q = k := by
  have hq0 : (0 : ℚ) ≤ q := le_trans (by exact_mod_cast hk) h1
  rw [truncZ_eq, if_neg (not_lt.mpr hq0)]
  refine Int.floor_eq_iff.mpr ⟨h1, ?_⟩
  exact h2

theorem truncZ_eq_of_nonpos_bounds {q : ℚ} {k : ℤ} (hk : k ≤ 0)
    (h1 : (k : ℚ) - 1 < q) (h2 : q ≤ k) : truncZ q = k := by
  rw [truncZ_eq]
  split_ifs with h0
  · refine Int.ceil_eq_iff.mpr ⟨?_, h2⟩
    exact h1
  · have hq0 : (0 : ℚ) ≤ q := not_lt.mp h0
    have hk0 : (0 : ℚ) ≤ (k : ℚ) := le_trans hq0 h2
    have hkz : k = 0 := le_antisymm hk (by exact_mod_cast hk0)
    subst hkz
    have hq : q = 0 := le_antisymm (by exact_mod_cast h2) hq0
    rw [hq]
    norm_num

theorem truncZ_between {q rr : ℚ} {k : ℤ} (hk : truncZ q = k)
    (h1 : (k : ℚ) ≤ rr) (h2 : rr ≤ q) (hq0 : 0 ≤ q) : truncZ rr = k := by
  have hb := truncZ_bounds_nonneg hq0
  rw [hk] at hb
  have hk0 : 0 ≤ k := by
    have h3 : (0 : ℚ) < (k : ℚ) + 1 := lt_of_le_of_lt hq0 hb.2
    have h4 : (0 : ℤ) < k + 1 := by exact_mod_cast h3
    omega
  exact truncZ_eq_of_nonneg_bounds hk0 h1 (lt_of_le_of_lt h2 hb.2)

theorem truncZ_between_neg {q rr : ℚ} {k : ℤ} (hk : truncZ q = k)
    (h1 : rr ≤ (k : ℚ)) (h2 : q ≤ rr) (hq0 : q ≤ 0) : truncZ rr = k := by
  have hb := truncZ_bounds_nonpos hq0
  rw [hk] at hb
  have hk0 : k ≤ 0 := by
    have h3 : (k : ℚ) - 1 < 0 := lt_of_lt_of_le hb.2 hq0
    have h4 : (k : ℤ) - 1 < 0 := by exact_mod_cast h3
    omega
  exact truncZ_eq_of_nonpos_bounds hk0 (lt_of_lt_of_le hb.2 h2) h1

theorem trunc_min_leaf (m : NumV) (z : PyNum) (k : ℤ) (hk : truncZ z.rat = k)
    (hkm : (k : ℚ) < m.rat) (hmz : m.rat ≤ z.rat) : m.toPyNum.toIntZ = k := by
  rw [toIntZ_eq, toPyNum_rat]
  rcases le_or_lt 0 z.rat with hq0 | hq0
  · exact truncZ_between hk (le_of_lt hkm) hmz hq0
  · exfalso
    have hb := truncZ_bounds_nonpos (le_of_lt hq0)
    rw [hk] at hb
    linarith [hb.1]

theorem trunc_max_leaf (M : NumV) (z : PyNum) (k : ℤ) (hk : truncZ z.rat = k)
    (hMk : M.rat < (k : ℚ)) (hzM : z.rat ≤ M.rat) : M.toPyNum.toIntZ = k := by
  rw [toIntZ_eq, toPyNum_rat]
  rcases le_or_lt 0 z.rat with hq0 | hq0
  · exfalso
    have hb := truncZ_bounds_nonneg hq0
    rw [hk] at hb
    linarith [hb.1]
  · exact truncZ_between_neg hk (le_of_lt hMk) hzM (le_of_lt hq0)

theorem trunc_min_leafP (p : ℤ) (hp : 0 ≤ p) (m : NumV) (z : PyNum) (k : ℤ)
    (hk : truncZ (pyRound z p).rat = k)
    (hkm : (k : ℚ) < m.rat) (hmz : m.rat ≤ z.rat) :
    (pyRound m.toPyNum p).toIntZ = k := by
  by_cases hwm : (pyRound z p).rat < m.rat
  · rw [pyRound_sandwich_up p hp z m hmz hwm, toIntZ_eq]
    exact hk
  · rw [toIntZ_eq, pyRound_rat, toPyNum_rat]
    have hwfix : roundRat (pyRound z p).rat p = (pyRound z p).rat := by
      rw [pyRound_rat, roundRat_idem]
    rcases le_or_lt 0 (pyRound z p).rat with hq0 | hq0
    · refine truncZ_between hk ?_ ?_ hq0
      · have h1 : roundRat ((k : ℤ) : ℚ) p ≤ roundRat m.rat p :=
          roundRat_mono p (le_of_lt hkm)
        rwa [roundRat_intCast k p hp] at h1
      · have h2 : roundRat m.rat p ≤ roundRat (pyRound z p).rat p :=
          roundRat_mono p (le_of_not_lt hwm)
        rwa [hwfix] at h2
    · exfalso
      have hb := truncZ_bounds_nonpos (le_of_lt hq0)
      rw [hk] at hb
      have hmw := le_of_not_lt hwm
      linarith [hb.1]

theorem trunc_max_leafP (p : ℤ) (hp : 0 ≤ p) (M : NumV) (z : PyNum) (k : ℤ)
    (hk : truncZ (pyRound z p).rat = k)
    (hMk : M.rat < (k : ℚ)) (hzM : z.rat ≤ M.rat) :
    (pyRound M.toPyNum p).toIntZ = k := by
  by_cases hMw : M.rat < (pyRound z p).rat
  · rw [pyRound_sandwich_down p hp z M hzM hMw, toIntZ_eq]
    exact hk
  · rw [toIntZ_eq, pyRound_rat, toPyNum_rat]
    have hwfix : roundRat (pyRound z p).rat p = (pyRound z p).rat := by
      rw [pyRound_rat, roundRat_idem]
    rcases le_or_lt 0 (pyRound z p).rat with hq0 | hq0
    · exfalso
      have hb := truncZ_bounds_nonneg hq0
      rw [hk] at hb
      have hwM := le_of_not_lt hMw
      linarith [hb.1]
    · refine truncZ_between_neg hk ?_ ?_ (le_of_lt hq0)
      · have h1 : roundRat M.rat p ≤ roundRat ((k : ℤ) : ℚ) p :=
          roundRat_mono p (le_of_lt hMk)
        rwa [roundRat_intCast k p hp] at h1
      · have h2 : roundRat (pyRound z p).rat p ≤ roundRat M.rat p :=
          roundRat_mono p (le_of_not_lt hMw)
        rwa [hwfix] at h2

/-- The eurocent branch: truncating, re-clamping and re-rounding the
truncated integer truncates back to the same integer. -/
theorem trunc_reclamp_fix (mno mxo : Option NumV) (po : Option ℤ)
    (hp : ∀ p, po = some p → 0 ≤ p) (z : PyNum)
    (hmin : ∀ m, mno = some m → (∀ M, mxo = some M → m.rat ≤ M.rat) → m.rat ≤ z.rat)
    (hmax : ∀ M, mxo = some M → z.rat ≤ M.rat)
    (hcross : ∀ m M, mno = some m → mxo = some M → M.rat < m.rat → z = M.toPyNum) :
    (roundPrecS po (clampMaxS mxo (clampMinS mno
        (.pint (roundPrecS po z).toIntZ)))).toIntZ =
      (roundPrecS po z).toIntZ := by
  cases po with
  | none =>
      simp only [roundPrecS]
      have hk : truncZ z.rat = z.toIntZ := (toIntZ_eq z).symm
      have hkr : (PyNum.pint z.toIntZ).rat = ((z.toIntZ : ℤ) : ℚ) := by
        simp [PyNum.rat, ratOfInt_eq]
      cases mno with
      | none =>
          simp only [clampMinS]
          cases mxo with
          | none => rfl
          | some M =>
              by_cases hMk : M.rat < (PyNum.pint z.toIntZ).rat
              · rw [clampMaxS_lt hMk]
                exact trunc_max_leaf M z z.toIntZ hk (by rw [hkr] at hMk; exact hMk)
                  (hmax M rfl)
              · rw [clampMaxS_ge hMk]
                rfl
      | some m =>
          by_cases hkm : (PyNum.pint z.toIntZ).rat < m.rat
          · rw [clampMinS_lt hkm]
            cases mxo with
            | none =>
                simp only [clampMaxS]
                exact trunc_min_leaf m z z.toIntZ hk (by rw [hkr] at hkm; exact hkm)
                  (hmin m rfl (by intro M hM; cases hM))
            | some M =>
                by_cases hMm : M.rat < m.rat
                · rw [clampMaxS_lt (by rw [toPyNum_rat]; exact hMm)]
                  have hz := hcross m M rfl rfl hMm
                  rw [← hz]
                · have hmM : m.rat ≤ M.rat := le_of_not_lt hMm
                  rw [clampMaxS_ge (by rw [toPyNum_rat]; exact not_lt.mpr hmM)]
                  exact trunc_min_leaf m z z.toIntZ hk (by rw [hkr] at hkm; exact hkm)
                    (hmin m rfl (fun M' hM' => by cases hM'; exact hmM))
          · rw [clampMinS_ge hkm]
            cases mxo with
            | none => rfl
            | some M =>
                by_cases hMk : M.rat < (PyNum.pint z.toIntZ).rat
                · rw [clampMaxS_lt hMk]
                  by_cases hMm : M.rat < m.rat
                  · have hz := hcross m M rfl rfl hMm
                    rw [← hz]
                  · exact trunc_max_leaf M z z.toIntZ hk
                      (by rw [hkr] at hMk; exact hMk) (hmax M rfl)
                · rw [clampMaxS_ge hMk]
                  rfl
  | some p =>
      have hp' : 0 ≤ p := hp p rfl
      simp only [roundPrecS]
      have hk : truncZ (pyRound z p).rat = (pyRound z p).toIntZ := (toIntZ_eq _).symm
      have hkr : (PyNum.pint (pyRound z p).toIntZ).rat =
          (((pyRound z p).toIntZ : ℤ) : ℚ) := by
        simp [PyNum.rat, ratOfInt_eq]
      cases mno with
      | none =>
          simp only [clampMinS]
          cases mxo with
          | none =>
              simp only [clampMaxS]
              rw [pyRound_pint hp']
              rfl
          | some M =>
              by_cases hMk : M.rat < (PyNum.pint (pyRound z p).toIntZ).rat
              · rw [clampMaxS_lt hMk]
                exact trunc_max_leafP p hp' M z _ hk (by rw [hkr] at hMk; exact hMk)
                  (hmax M rfl)
              · rw [clampMaxS_ge hMk, pyRound_pint hp']
                rfl
      | some m =>
          by_cases hkm : (PyNum.pint (pyRound z p).toIntZ).rat < m.rat
          · rw [clampMinS_lt hkm]
            cases mxo with
            | none =>
                simp only [clampMaxS]
                exact trunc_min_leafP p hp' m z _ hk (by rw [hkr] at hkm; exact hkm)
                  (hmin m rfl (by intro M hM; cases hM))
            | some M =>
                by_cases hMm : M.rat < m.rat
                · rw [clampMaxS_lt (by rw [toPyNum_rat]; exact hMm)]
                  have hz := hcross m M rfl rfl hMm
                  rw [← hz]
                · have hmM : m.rat ≤ M.rat := le_of_not_lt hMm
                  rw [clampMaxS_ge (by rw [toPyNum_rat]; exact not_lt.mpr hmM)]
                  exact trunc_min_leafP p hp' m z _ hk (by rw [hkr] at hkm; exact hkm)
                    (hmin m rfl (fun M' hM' => by cases hM'; exact hmM))
          · rw [clampMinS_ge hkm]
            cases mxo with
            | none =>
                simp only [clampMaxS]
                rw [pyRound_pint hp']
                rfl
            | some M =>
                by_cases hMk : M.rat < (PyNum.pint (pyRound z p).toIntZ).rat
                · rw [clampMaxS_lt hMk]
                  by_cases hMm : M.rat < m.rat
                  · have hz := hcross m M rfl rfl hMm
                    rw [← hz]
                  · exact trunc_max_leafP p hp' M z _ hk
                      (by rw [hkr] at hMk; exact hMk) (hmax M rfl)
                · rw [clampMaxS_ge hMk, pyRound_pint hp']
                  rfl

theorem enforceNum_eq (t : TypeSpec) (x : PyNum) :
    enforceNum t x =
      unitCoerceS t.unit (roundPrecS t.precision
        (clampMaxS t.max (clampMinS t.min x))) := by
  obtain ⟨u, p, mn, mx⟩ := t
  cases mn <;> cases mx <;> cases p <;> rfl

theorem enforce_toVal (t : TypeSpec) (x : PyNum) :
    t.enforce x.toVal = enforceNum t x := by
  cases x <;> rfl

theorem clamp_hmin (mno mxo : Option NumV) (x : PyNum) :
    ∀ m, mno = some m → (∀ M, mxo = some M → m.rat ≤ M.rat) →
      m.rat ≤ (clampMaxS mxo (clampMinS mno x)).rat := by
  intro m hm hcond
  subst hm
  exact clampMaxS_lower mxo _ (clampMinS_rat_ge m x) hcond

theorem clamp_hmax (mno mxo : Option NumV) (x : PyNum) :
    ∀ M, mxo = some M → (clampMaxS mxo (clampMinS mno x)).rat ≤ M.rat := by
  intro M hM
  subst hM
  exact clampMaxS_rat_le M _

theorem clamp_hcross (mno mxo : Option NumV) (x : PyNum) :
    ∀ m M, mno = some m → mxo = some M → M.rat < m.rat →
      clampMaxS mxo (clampMinS mno x) = M.toPyNum := by
  intro m M hm hM hMm
  subst hm
  subst hM
  exact clampMaxS_lt (lt_of_lt_of_le hMm (clampMinS_rat_ge m x))

/-- Re-enforcing a numeric enforcement result is a no-op (non-negative
precision). -/
theorem enforceNum_idem (t : TypeSpec) (hp : ∀ p, t.precision = some p → 0 ≤ p)
    (x : PyNum) : t.enforce (enforceNum t x) = enforceNum t x := by
  rw [enforceNum_eq t x]
  by_cases hu : t.unit = some "eurocent"
  · rw [unitCoerceS, if_pos hu]
    have he : ∀ n : ℤ, t.enforce (.int n) = enforceNum t (.pint n) := fun n => rfl
    rw [he, enforceNum_eq, unitCoerceS, if_pos hu]
    congr 1
    exact trunc_reclamp_fix t.min t.max t.precision hp _
      (clamp_hmin t.min t.max x) (clamp_hmax t.min t.max x) (clamp_hcross t.min t.max x)
  · rw [unitCoerceS, if_neg hu]
    rw [enforce_toVal, enforceNum_eq, unitCoerceS, if_neg hu]
    congr 1
    cases hpo : t.precision with
    | none =>
        simp only [roundPrecS]
        exact clamp_fix t.min t.max _
          (clamp_hmin t.min t.max x) (clamp_hmax t.min t.max x)
          (clamp_hcross t.min t.max x)
    | some p =>
        simp only [roundPrecS]
        exact clamp_round_fix t.min t.max p (hp p hpo) _
          (clamp_hmin t.min t.max x) (clamp_hmax t.min t.max x)
          (clamp_hcross t.min t.max x)

/-- C7 counterexample: with the (legal) negative precision `-1` and an
integer minimum, the first enforcement yields the float `10.0` while the
second clamps it to the int bound and yields the int `10`: the two results
are distinct Python values (`float` vs `int`), a difference the engine
itself can observe (e.g. MULTIPLY's float test).  So enforce∘enforce ≠
enforce in general. -/
theorem c7_enforce_counterexample :
    (({ min := some (.int 14), precision := some (-1) } : TypeSpec).enforce
        (({ min := some (.int 14), precision := some (-1) } : TypeSpec).enforce
          (.float (mkRat 71 5))) = .int 10) ∧
    (({ min := some (.int 14), precision := some (-1) } : TypeSpec).enforce
        (.float (mkRat 71 5)) = .float 10) ∧
    Val.int 10 ≠ Val.float 10 :=
  ⟨rfl, rfl, fun h => Val.noConfusion h⟩

/-- C7 (amended): `enforce` is idempotent whenever the spec's precision is
absent or non-negative: `t.enforce (t.enforce v) = t.enforce v`. -/
theorem c7_enforce_idem (t : TypeSpec) (v : Val)
    (hp : ∀ p, t.precision = some p → 0 ≤ p) :
    t.enforce (t.enforce v) = t.enforce v := by
  cases v with
  | none => rfl
  | list vs => rfl
  | dict d => rfl
  | bool b => exact enforceNum_idem t hp (.pbool b)
  | int n => exact enforceNum_idem t hp (.pint n)
  | float q => exact enforceNum_idem t hp (.pfloat q)
  | str s =>
      cases hpf : parseFloat s with
      | none =>
          have h1 : t.enforce (.str s) = .str s := by
            simp only [TypeSpec.enforce, hpf]
          rw [h1, h1]
      | some q =>
          have h1 : t.enforce (.str s) = enforceNum t (.pfloat q) := by
            simp only [TypeSpec.enforce, hpf]
          rw [h1]
          exact enforceNum_idem t hp (.pfloat q)

/-- C7 witness: a spec with bounds, precision 2 and the eurocent unit is
idempotent on 12.3. -/
theorem c7_enforce_idem_witness :
    ({ min := some (.int 5), max := some (.float (mkRat 21 2)), precision := some 2,
        unit := some "eurocent" } : TypeSpec).enforce
      (({ min := some (.int 5), max := some (.float (mkRat 21 2)), precision := some 2,
          unit := some "eurocent" } : TypeSpec).enforce (.float (mkRat 123 10))) =
    ({ min := some (.int 5), max := some (.float (mkRat 21 2)), precision := some 2,
        unit := some "eurocent" } : TypeSpec).enforce (.float (mkRat 123 10)) :=
  c7_enforce_idem _ _ (by intro p h; simp at h; omega)

end Engine
